import Mathlib

/-!
Verification of the portal-reachability core of PortalPlanner.

This file gives a shallow embedding, in Lean, of the geometric primitives
and the portal-linking algorithms of the repository (files pos.rs, util.rs,
region.rs, portal.rs, entity.rs, world.rs), and proves or refutes the
specified properties about them.  Coordinates are modelled as unbounded
integers; the saturating i64 operations that the source uses explicitly are
modelled as explicit clamps to the i64 range; the f64 world coordinates are
modelled as rationals.  Fallible operations (slice indexing, recursion with
a fuel bound) return Option, with none standing for a panic or exhaustion.
-/

/-- Axis in the world (pos.rs). -/
inductive Axis where
  | X
  | Y
  | Z
deriving DecidableEq

/-- Array of all axes, in declaration order (Axis::ALL). -/
def Axis.ALL : List Axis := [Axis.X, Axis.Y, Axis.Z]

/-- Discriminant of the axis as used for corner-index bit positions. -/
def Axis.idx : Axis → Nat
  | Axis.X => 0
  | Axis.Y => 1
  | Axis.Z => 2

/-- Block coordinates (pos.rs), with unbounded integers for i64. -/
structure BlockPos where
  x : Int
  y : Int
  z : Int
deriving DecidableEq

/-- Indexing a position by axis (the Index impl on BlockPos). -/
def BlockPos.index (p : BlockPos) : Axis → Int
  | Axis.X => p.x
  | Axis.Y => p.y
  | Axis.Z => p.z

/-- Writing one coordinate of a position by axis (the IndexMut impl). -/
def BlockPos.setIndex (p : BlockPos) (a : Axis) (v : Int) : BlockPos :=
  match a with
  | Axis.X => { p with x := v }
  | Axis.Y => { p with y := v }
  | Axis.Z => { p with z := v }

/-- std::cmp::min on i64. -/
def i64_min (a b : Int) : Int := if a ≤ b then a else b

/-- std::cmp::max on i64. -/
def i64_max (a b : Int) : Int := if a ≤ b then b else a

/-- util.rs: minimum distance between two inclusive ranges. -/
def min_range_distance_to (a1 b1 a2 b2 : Int) : Int :=
  if b1 < a2 then a2 - b1
  else if b2 < a1 then a1 - b2
  else 0

/-- util.rs: distance from an inclusive range to a single coordinate. -/
def min_range_distance_to_pos (lo hi pos : Int) : Int :=
  if hi < pos then pos - hi
  else if pos < lo then lo - pos
  else 0

/-- util.rs: maximum over the ends of the first range of the distance to the
second range. -/
def max_range_distance_to (a1 b1 a2 b2 : Int) : Int :=
  i64_max (min_range_distance_to_pos a2 b2 a1) (min_range_distance_to_pos a2 b2 b1)

/-- Cuboid of block coordinates, both bounds inclusive (region.rs). -/
structure BlockRegion where
  min : BlockPos
  max : BlockPos
deriving DecidableEq

/-- region.rs: minimum possible squared Euclidean distance between a point of
the first region and the closest point of the second. -/
def BlockRegion.min_euclidean_distance_sq_to (r o : BlockRegion) : Int :=
  let dx := min_range_distance_to r.min.x r.max.x o.min.x o.max.x
  let dy := min_range_distance_to r.min.y r.max.y o.min.y o.max.y
  let dz := min_range_distance_to r.min.z r.max.z o.min.z o.max.z
  dx * dx + dy * dy + dz * dz

/-- region.rs: maximum possible squared Euclidean distance between a point of
the first region and the closest point of the second. -/
def BlockRegion.max_euclidean_distance_sq_to (r o : BlockRegion) : Int :=
  let dx := max_range_distance_to r.min.x r.max.x o.min.x o.max.x
  let dy := max_range_distance_to r.min.y r.max.y o.min.y o.max.y
  let dz := max_range_distance_to r.min.z r.max.z o.min.z o.max.z
  dx * dx + dy * dy + dz * dz

/-- region.rs: minimum squared Euclidean distance from a region to a point. -/
def BlockRegion.min_euclidean_distance_sq_to_point (r : BlockRegion) (p : BlockPos) : Int :=
  let dx := min_range_distance_to_pos r.min.x r.max.x p.x
  let dy := min_range_distance_to_pos r.min.y r.max.y p.y
  let dz := min_range_distance_to_pos r.min.z r.max.z p.z
  dx * dx + dy * dy + dz * dz

/-- The list of integers from lo to hi inclusive. -/
def intRange (lo hi : Int) : List Int :=
  (List.range (hi + 1 - lo).toNat).map (fun k : Nat => lo + (k : Int))

/-- region.rs: iterator over all positions of the region, z outermost and x
innermost, matching the iproduct iteration order of the source. -/
def BlockRegion.points (r : BlockRegion) : List BlockPos :=
  (intRange r.min.z r.max.z).flatMap fun z =>
    (intRange r.min.y r.max.y).flatMap fun y =>
      (intRange r.min.x r.max.x).map fun x => BlockPos.mk x y z

/-- region.rs: whether min is at most max along one axis. -/
def BlockRegion.is_valid_on_axis (r : BlockRegion) (a : Axis) : Bool :=
  r.min.index a ≤ r.max.index a

/-- Validity on every axis; the precondition the resolver assumes. -/
def BlockRegion.isValid (r : BlockRegion) : Prop :=
  r.min.x ≤ r.max.x ∧ r.min.y ≤ r.max.y ∧ r.min.z ≤ r.max.z

instance (r : BlockRegion) : Decidable r.isValid := by
  unfold BlockRegion.isValid; infer_instance

/-- Membership of an integer point in a region. -/
def BlockRegion.containsPos (r : BlockRegion) (p : BlockPos) : Prop :=
  r.min.x ≤ p.x ∧ p.x ≤ r.max.x ∧
  r.min.y ≤ p.y ∧ p.y ≤ r.max.y ∧
  r.min.z ≤ p.z ∧ p.z ≤ r.max.z

instance (r : BlockRegion) (p : BlockPos) : Decidable (r.containsPos p) := by
  unfold BlockRegion.containsPos; infer_instance

/-- region.rs: the 8 corners of the region; the X axis is the least
significant bit of the index and the Z axis the most significant. -/
def BlockRegion.corners (r : BlockRegion) : List BlockPos :=
  [BlockPos.mk r.min.x r.min.y r.min.z,
   BlockPos.mk r.max.x r.min.y r.min.z,
   BlockPos.mk r.min.x r.max.y r.min.z,
   BlockPos.mk r.max.x r.max.y r.min.z,
   BlockPos.mk r.min.x r.min.y r.max.z,
   BlockPos.mk r.max.x r.min.y r.max.z,
   BlockPos.mk r.min.x r.max.y r.max.z,
   BlockPos.mk r.max.x r.max.y r.max.z]

/-- region.rs: split a region in half along an axis, excluding the end layers
along that axis.  The halfway point uses i64 division, which truncates
toward zero. -/
def BlockRegion.split_excluding_corners (r : BlockRegion) (a : Axis) :
    Option BlockRegion × Option BlockRegion :=
  let lo1 := { r with min := r.min.setIndex a (r.min.index a + 1) }
  let hi1 := { r with max := r.max.setIndex a (r.max.index a - 1) }
  let half_size := Int.tdiv (r.max.index a - r.min.index a) 2
  let halfway := r.min.index a + half_size
  let lo := { lo1 with max := lo1.max.setIndex a halfway }
  let hi := { hi1 with min := hi1.min.setIndex a (halfway + 1) }
  (if lo.is_valid_on_axis a then some lo else none,
   if hi.is_valid_on_axis a then some hi else none)

/-- region.rs: split a region at coordinate + 0.5 along an axis. -/
def BlockRegion.split_at (r : BlockRegion) (a : Axis) (coordinate : Int) :
    Option BlockRegion × Option BlockRegion :=
  let lo := { r with max := r.max.setIndex a (i64_min (r.max.index a) coordinate) }
  let hi := { r with min := r.min.setIndex a (i64_max (r.min.index a) (coordinate + 1)) }
  (if lo.is_valid_on_axis a then some lo else none,
   if hi.is_valid_on_axis a then some hi else none)

/-- Membership in an optional region; none holds no point. -/
def optContains (o : Option BlockRegion) (p : BlockPos) : Prop :=
  match o with
  | none => False
  | some r => r.containsPos p

instance (o : Option BlockRegion) (p : BlockPos) : Decidable (optContains o p) := by
  cases o <;> unfold optContains <;> infer_instance

/-- world.rs minima_by_opt_key: running fold keeping all items attaining the
least some-key seen so far. -/
def minima_by_opt_key_loop {α κ : Type} [LinearOrder κ] (f : α → Option κ) :
    Option κ → List α → List α → List α
  | _, ret, [] => ret
  | min_key, ret, item :: rest =>
    match f item with
    | none => minima_by_opt_key_loop f min_key ret rest
    | some key =>
      match min_key with
      | none => minima_by_opt_key_loop f (some key) [item] rest
      | some m =>
        if key < m then minima_by_opt_key_loop f (some key) [item] rest
        else if some m = some key then minima_by_opt_key_loop f (some m) (ret ++ [item]) rest
        else minima_by_opt_key_loop f (some m) ret rest

/-- world.rs minima_by_opt_key. -/
def minima_by_opt_key {α κ : Type} [LinearOrder κ] (xs : List α) (f : α → Option κ) :
    List α :=
  minima_by_opt_key_loop f none [] xs

/-- Overworld or nether (world.rs). -/
inductive Dimension where
  | Overworld
  | Nether
deriving DecidableEq

/-- world.rs: lowest Y coordinate at which a block can be placed. -/
def Dimension.y_min : Dimension → Int
  | Dimension.Overworld => -64
  | Dimension.Nether => 0

/-- world.rs: highest Y coordinate at which a block can be placed. -/
def Dimension.y_max : Dimension → Int
  | Dimension.Overworld => 319
  | Dimension.Nether => 255

/-- world.rs: blocks away from a destination block at which a portal block can
still be found: 128 in the overworld, 16 in the nether. -/
def Dimension.portal_search_range : Dimension → Int
  | Dimension.Overworld => 128
  | Dimension.Nether => 16

/-- world.rs: the other dimension. -/
def Dimension.other : Dimension → Dimension
  | Dimension.Overworld => Dimension.Nether
  | Dimension.Nether => Dimension.Overworld

/-- Horizontal axis perpendicular to the portal surface (portal.rs). -/
inductive PortalAxis where
  | X
  | Z
deriving DecidableEq

/-- portal.rs: the other horizontal axis. -/
def PortalAxis.other : PortalAxis → PortalAxis
  | PortalAxis.X => PortalAxis.Z
  | PortalAxis.Z => PortalAxis.X

/-- portal.rs: conversion From PortalAxis to Axis. -/
def PortalAxis.toAxis : PortalAxis → Axis
  | PortalAxis.X => Axis.X
  | PortalAxis.Z => Axis.Z

/-- Portal in an unspecified dimension (portal.rs).  The id is the unique
identity assigned by the global counter; name and color are cosmetic. -/
structure Portal where
  id : Nat
  name : String
  color : Nat × Nat × Nat
  region : BlockRegion
  axis : PortalAxis
deriving DecidableEq

/-- portal.rs: axis of the width of the portal. -/
def Portal.width_axis (p : Portal) : Axis := p.axis.other.toAxis

/-- portal.rs: axis of the depth of the portal. -/
def Portal.depth_axis (p : Portal) : Axis := p.axis.toAxis

/-- portal.rs: minimum width of a portal. -/
def Portal.MIN_WIDTH : Int := 2

/-- portal.rs: minimum height of a portal. -/
def Portal.MIN_HEIGHT : Int := 3

/-- portal.rs: minimum difference of the coordinates along the width. -/
def Portal.MIN_DW : Int := Portal.MIN_WIDTH - 1

/-- portal.rs: minimum difference of the coordinates along the height. -/
def Portal.MIN_DH : Int := Portal.MIN_HEIGHT - 1

/-- Description of an entity (entity.rs); f64 sizes modelled as rationals. -/
structure Entity where
  width : ℚ
  height : ℚ
  is_projectile : Bool
deriving DecidableEq

/-- Coordinates within a dimension (pos.rs); f64 modelled as rationals. -/
structure WorldPos where
  x : ℚ
  y : ℚ
  z : ℚ
deriving DecidableEq

/-- Indexing a world position by axis. -/
def WorldPos.index (p : WorldPos) : Axis → ℚ
  | Axis.X => p.x
  | Axis.Y => p.y
  | Axis.Z => p.z

/-- Writing one coordinate of a world position by axis. -/
def WorldPos.setIndex (p : WorldPos) (a : Axis) (v : ℚ) : WorldPos :=
  match a with
  | Axis.X => { p with x := v }
  | Axis.Y => { p with y := v }
  | Axis.Z => { p with z := v }

/-- Cuboid of world coordinates (region.rs). -/
structure WorldRegion where
  min : WorldPos
  max : WorldPos
deriving DecidableEq

/-- region.rs: From BlockRegion for WorldRegion, adding one to each maximum
coordinate because a block occupies a unit cube. -/
def WorldRegion.of_block_region (r : BlockRegion) : WorldRegion :=
  { min := WorldPos.mk (r.min.x : ℚ) (r.min.y : ℚ) (r.min.z : ℚ),
    max := WorldPos.mk ((r.max.x : ℚ) + 1) ((r.max.y : ℚ) + 1) ((r.max.z : ℚ) + 1) }

/-- region.rs: whether min is at most max along each axis. -/
def WorldRegion.is_valid (r : WorldRegion) : Bool :=
  r.min.x ≤ r.max.x && r.min.y ≤ r.max.y && r.min.z ≤ r.max.z

/-- portal.rs: region where an entity can collide with the portal; none if
the entity does not fit. -/
def Portal.entity_collision_region (p : Portal) (entity : Entity) : Option WorldRegion :=
  let result0 : WorldRegion := WorldRegion.of_block_region p.region
  let r1 := { result0 with
    min := { result0.min with x := result0.min.x - entity.width / 2,
                              z := result0.min.z - entity.width / 2 },
    max := { result0.max with x := result0.max.x + entity.width / 2,
                              z := result0.max.z + entity.width / 2 } }
  let r2 := if entity.is_projectile then
      { r1 with min := { r1.min with y := r1.min.y - entity.height } }
    else r1
  let r3 := if entity.is_projectile then r2 else
      let w := p.width_axis
      let r2a := { r2 with min := r2.min.setIndex w (r2.min.index w + entity.width) }
      let r2b := { r2a with max := r2a.max.setIndex w (r2a.max.index w - entity.width) }
      { r2b with max := { r2b.max with y := r2b.max.y - entity.height } }
  if r3.is_valid then some r3 else none

/-- The largest i64 value. -/
def I64_MAX : Int := 9223372036854775807

/-- The smallest i64 value. -/
def I64_MIN : Int := -9223372036854775808

/-- i64 saturating_add. -/
def saturating_add (a b : Int) : Int := i64_min (i64_max (a + b) I64_MIN) I64_MAX

/-- i64 saturating_sub. -/
def saturating_sub (a b : Int) : Int := i64_min (i64_max (a - b) I64_MIN) I64_MAX

/-- i64 clamp (callers below always pass lo at most hi). -/
def i64_clamp (x lo hi : Int) : Int := i64_max lo (i64_min x hi)

/-- i64 wrapping arithmetic: the result of an overflowing plain i64 operation
in a release build (a debug build panics on the same operation instead). -/
def wrap64 (x : Int) : Int :=
  (x + 9223372036854775808) % 18446744073709551616 - 9223372036854775808

/-- portal.rs adjust_min: the closure is modelled by the value it leaves in
min; the result of the closure is irrelevant to the region.  Ensures the
portal stays valid, preserving the size when lock_size is set. -/
def Portal.adjust_min (p : Portal) (new_min : BlockPos) (lock_size : Bool)
    (dimension : Dimension) : Portal :=
  let w := p.width_axis
  let h := Axis.Y
  let d := p.depth_axis
  let min0 := p.region.min
  let max0 := p.region.max
  let dw := saturating_sub (max0.index w) (min0.index w)
  let dd := saturating_sub (max0.index d) (min0.index d)
  let dh := saturating_sub (max0.index h) (min0.index h)
  let lowest_min_y := dimension.y_min + 1
  let highest_min_y := i64_max (dimension.y_max - 1 - dh) lowest_min_y
  let min2 := { new_min with y := i64_clamp new_min.y lowest_min_y highest_min_y }
  let max1 :=
    if lock_size then
      ((max0.setIndex w (saturating_add (min2.index w) dw)).setIndex h
          (saturating_add (min2.index h) dh)).setIndex d
        (saturating_add (min2.index d) dd)
    else
      ((max0.setIndex w
            (i64_max (max0.index w) (saturating_add (min2.index w) Portal.MIN_DW))).setIndex h
          (i64_max (max0.index h) (saturating_add (min2.index h) Portal.MIN_DH))).setIndex d
        (i64_max (max0.index d) (min2.index d))
  { p with region := BlockRegion.mk min2 max1 }

/-- portal.rs adjust_max: the closure is modelled by the value it leaves in
max. -/
def Portal.adjust_max (p : Portal) (new_max : BlockPos) (lock_size : Bool)
    (dimension : Dimension) : Portal :=
  let w := p.width_axis
  let h := Axis.Y
  let d := p.depth_axis
  let min0 := p.region.min
  let max0 := p.region.max
  let dw := saturating_sub (max0.index w) (min0.index w)
  let dd := saturating_sub (max0.index d) (min0.index d)
  let dh := saturating_sub (max0.index h) (min0.index h)
  let highest_min_y := dimension.y_max - 1
  let lowest_min_y := i64_min (dimension.y_min + 1 + dh) highest_min_y
  let max2 := { new_max with y := i64_clamp new_max.y lowest_min_y highest_min_y }
  let min1 :=
    if lock_size then
      ((min0.setIndex w (saturating_sub (max2.index w) dw)).setIndex d
          (saturating_sub (max2.index d) dd)).setIndex h
        (saturating_sub (max2.index h) dh)
    else
      ((min0.setIndex w
            (i64_min (min0.index w) (saturating_sub (max2.index w) Portal.MIN_DW))).setIndex d
          (i64_min (min0.index d) (max2.index d))).setIndex h
        (i64_min (min0.index h) (saturating_sub (max2.index h) Portal.MIN_DH))
  { p with region := BlockRegion.mk min1 max2 }

/-- portal.rs adjust_width: the closure is modelled by the width value it
leaves; min is preserved. -/
def Portal.adjust_width (p : Portal) (new_width : Int) : Portal :=
  let w := p.width_axis
  let width := i64_max new_width Portal.MIN_WIDTH
  { p with region := { p.region with
      max := p.region.max.setIndex w
        (saturating_add (p.region.min.index w) (width - 1)) } }

/-- portal.rs adjust_height: the closure is modelled by the height value it
leaves; min is preserved if possible. -/
def Portal.adjust_height (p : Portal) (new_height : Int) (dimension : Dimension) : Portal :=
  let height := i64_max new_height Portal.MIN_HEIGHT
  let max_y1 := saturating_add p.region.min.y (height - 1)
  if max_y1 > dimension.y_max - 1 then
    let excess := max_y1 - (dimension.y_max - 1)
    let max_y2 := max_y1 - excess
    let min_y1 := p.region.min.y - excess
    let min_y2 := if min_y1 < dimension.y_min + 1 then dimension.y_min + 1 else min_y1
    { p with region := (BlockRegion.mk
        ({ p.region.min with y := min_y2 })
        ({ p.region.max with y := max_y2 })) }
  else
    { p with region := { p.region with max := { p.region.max with y := max_y1 } } }

/-- portal.rs adjust_axis: the closure is modelled by the axis value it
leaves; the numeric width is preserved on the new width axis and the depth
collapses.  The subtraction and addition here are plain i64 arithmetic in
the source, not saturating, so they wrap past the i64 range. -/
def Portal.adjust_axis (p : Portal) (new_axis : PortalAxis) : Portal :=
  let w := p.width_axis
  let dw := wrap64 (p.region.max.index w - p.region.min.index w)
  let p2 := { p with axis := new_axis }
  let w2 := p2.width_axis
  let d2 := p2.depth_axis
  let max1 := (p.region.max.setIndex w2 (wrap64 (p.region.min.index w2 + dw))).setIndex d2
    (p.region.min.index d2)
  { p2 with region := { p.region with max := max1 } }

/-- The validity invariant of a portal in a dimension: width at least 2,
height at least 3, vertical bounds within the legal placement range. -/
def Portal.validIn (p : Portal) (dim : Dimension) : Prop :=
  p.region.min.index p.width_axis + 1 ≤ p.region.max.index p.width_axis ∧
  p.region.min.y + 2 ≤ p.region.max.y ∧
  dim.y_min + 1 ≤ p.region.min.y ∧ p.region.max.y ≤ dim.y_max - 1

instance (p : Portal) (dim : Dimension) : Decidable (p.validIn dim) := by
  unfold Portal.validIn; infer_instance

/-- One mutation step on a portal, with the closure modelled by the value it
writes. -/
inductive PortalOp where
  | adjMin (new_min : BlockPos) (lock_size : Bool)
  | adjMax (new_max : BlockPos) (lock_size : Bool)
  | adjWidth (new_width : Int)
  | adjHeight (new_height : Int)
  | adjAxis (new_axis : PortalAxis)
deriving DecidableEq

/-- Apply one adjust operation. -/
def Portal.applyOp (p : Portal) (dim : Dimension) : PortalOp → Portal
  | PortalOp.adjMin m l => p.adjust_min m l dim
  | PortalOp.adjMax m l => p.adjust_max m l dim
  | PortalOp.adjWidth w => p.adjust_width w
  | PortalOp.adjHeight h => p.adjust_height h dim
  | PortalOp.adjAxis a => p.adjust_axis a

/-- Apply a sequence of adjust operations from left to right. -/
def Portal.applyOps (p : Portal) (dim : Dimension) : List PortalOp → Portal
  | [] => p
  | op :: rest => (p.applyOp dim op).applyOps dim rest

/-- Whether an integer lies in the representable i64 range. -/
def inI64 (x : Int) : Prop := I64_MIN ≤ x ∧ x ≤ I64_MAX

instance (x : Int) : Decidable (inI64 x) := by
  unfold inI64; infer_instance

/-- The exact-arithmetic side condition of one operation on one state: every
saturating i64 operation the step performs returns the exact integer result,
and every plain i64 operation the step performs stays in the representable
range (so it neither wraps in a release build nor panics in a debug
build). -/
def Portal.opSafe (p : Portal) (dim : Dimension) : PortalOp → Prop
  | PortalOp.adjMin new_min lock_size =>
    let w := p.width_axis
    let d := p.depth_axis
    let min0 := p.region.min
    let max0 := p.region.max
    let dw := max0.index w - min0.index w
    let dd := max0.index d - min0.index d
    let dh := max0.y - min0.y
    let highest_min_y := i64_max (dim.y_max - 1 - dh) (dim.y_min + 1)
    let y2 := i64_clamp new_min.y (dim.y_min + 1) highest_min_y
    inI64 dw ∧ inI64 dd ∧ inI64 dh ∧
    (if lock_size then
      inI64 (new_min.index w + dw) ∧ inI64 (y2 + dh) ∧ inI64 (new_min.index d + dd)
    else
      inI64 (new_min.index w + Portal.MIN_DW) ∧ inI64 (y2 + Portal.MIN_DH))
  | PortalOp.adjMax new_max lock_size =>
    let w := p.width_axis
    let d := p.depth_axis
    let min0 := p.region.min
    let max0 := p.region.max
    let dw := max0.index w - min0.index w
    let dd := max0.index d - min0.index d
    let dh := max0.y - min0.y
    let lowest_min_y := i64_min (dim.y_min + 1 + dh) (dim.y_max - 1)
    let y2 := i64_clamp new_max.y lowest_min_y (dim.y_max - 1)
    inI64 dw ∧ inI64 dd ∧ inI64 dh ∧
    (if lock_size then
      inI64 (new_max.index w - dw) ∧ inI64 (y2 - dh) ∧ inI64 (new_max.index d - dd)
    else
      inI64 (new_max.index w - Portal.MIN_DW) ∧ inI64 (y2 - Portal.MIN_DH))
  | PortalOp.adjWidth new_width =>
    inI64 (p.region.min.index p.width_axis + (i64_max new_width Portal.MIN_WIDTH - 1))
  | PortalOp.adjHeight _ => True
  | PortalOp.adjAxis new_axis =>
    let w := p.width_axis
    let dw := p.region.max.index w - p.region.min.index w
    let w2 := new_axis.other.toAxis
    inI64 dw ∧ inI64 (p.region.min.index w2 + dw)

instance (p : Portal) (dim : Dimension) (op : PortalOp) : Decidable (p.opSafe dim op) := by
  cases op <;> unfold Portal.opSafe <;> dsimp only <;> infer_instance

/-- The no-saturation side condition along a whole trajectory. -/
def Portal.opsSafe (p : Portal) (dim : Dimension) : List PortalOp → Prop
  | [] => True
  | op :: rest => p.opSafe dim op ∧ (p.applyOp dim op).opsSafe dim rest

instance (p : Portal) (dim : Dimension) (ops : List PortalOp) :
    Decidable (p.opsSafe dim ops) := by
  induction ops generalizing p with
  | nil => unfold Portal.opsSafe; infer_instance
  | cons op rest ih =>
    unfold Portal.opsSafe
    have := ih (p.applyOp dim op)
    infer_instance

/-- portal.rs: whether the portal is within the portal search range of a
point, a per-axis box check on X and Z ignoring Y. -/
def Portal.is_in_range_of_point (p : Portal) (pos : BlockPos) (dimension : Dimension) : Bool :=
  let r := dimension.portal_search_range
  (decide (p.region.min.x - r ≤ pos.x) && decide (pos.x ≤ p.region.max.x + r)) &&
  (decide (p.region.min.z - r ≤ pos.z) && decide (pos.z ≤ p.region.max.z + r))

/-- portal.rs: whether the portal is within the search range of some point of
the region. -/
def Portal.is_in_range_of_region (p : Portal) (region : BlockRegion)
    (dimension : Dimension) : Bool :=
  let r := dimension.portal_search_range
  decide (p.region.min.x ≤ region.max.x + r) &&
  decide (p.region.min.z ≤ region.max.z + r) &&
  decide (p.region.max.x ≥ region.min.x - r) &&
  decide (p.region.max.z ≥ region.min.z - r)

/-- portal.rs: whether the portal is within the search range of every point
of the region. -/
def Portal.is_always_in_range_of_region (p : Portal) (region : BlockRegion)
    (dimension : Dimension) : Bool :=
  let r := dimension.portal_search_range
  decide (max_range_distance_to region.min.x region.max.x
    p.region.min.x p.region.max.x ≤ r) &&
  decide (max_range_distance_to region.min.z region.max.z
    p.region.min.z p.region.max.z ≤ r)

/-- Portals in a Minecraft world (world.rs). -/
structure WorldPortals where
  overworld : List Portal
  nether : List Portal
deriving DecidableEq

/-- world.rs: the Index impl selecting the portal list of a dimension. -/
def WorldPortals.index (wp : WorldPortals) : Dimension → List Portal
  | Dimension.Overworld => wp.overworld
  | Dimension.Nether => wp.nether

/-- One iteration of the per-point loop of portal_destinations_naive: update
the reachability flags and the new-portal flag for one destination point. -/
def naive_point_step (candidates : List Portal) (dim : Dimension) (pt : BlockPos)
    (acc : List Bool × Bool) : List Bool × Bool :=
  let distances := candidates.map (fun c =>
    if c.is_in_range_of_point pt dim then c.region.min_euclidean_distance_sq_to_point pt
    else I64_MAX)
  let min_distance := (distances.min?).getD I64_MAX
  if min_distance = I64_MAX then (acc.1, true)
  else (List.zipWith (fun f d => f || decide (d = min_distance)) acc.1 distances, acc.2)

/-- The whole per-point scan of portal_destinations_naive: the final
reachability flags and new-portal flag. -/
def naive_scan (candidates : List Portal) (dim : Dimension) (region : BlockRegion) :
    List Bool × Bool :=
  region.points.foldl (fun acc pt => naive_point_step candidates dim pt acc)
    (List.replicate candidates.length false, false)

/-- world.rs portal_destinations_naive: the per-point scan over every integer
point of the region. -/
def WorldPortals.portal_destinations_naive (wp : WorldPortals) (dim : Dimension)
    (region : BlockRegion) : List Portal × Bool :=
  let candidates := wp.index dim
  let res := naive_scan candidates dim region
  ((List.zip candidates res.1).filterMap (fun cf => if cf.2 then some cf.1 else none),
   res.2)

/-- util.rs min_range_distance_to_pos under release i64 semantics: the two
subtractions wrap (in a debug build they panic on overflow instead). -/
def min_range_distance_to_pos_i64 (lo hi pos : Int) : Int :=
  if hi < pos then wrap64 (pos - hi)
  else if pos < lo then wrap64 (lo - pos)
  else 0

/-- region.rs min_euclidean_distance_sq_to_point under release i64 semantics:
every multiplication and addition wraps (in a debug build each overflowing
operation panics instead). -/
def BlockRegion.min_euclidean_distance_sq_to_point_i64 (r : BlockRegion)
    (p : BlockPos) : Int :=
  let dx := min_range_distance_to_pos_i64 r.min.x r.max.x p.x
  let dy := min_range_distance_to_pos_i64 r.min.y r.max.y p.y
  let dz := min_range_distance_to_pos_i64 r.min.z r.max.z p.z
  wrap64 (wrap64 (wrap64 (dx * dx) + wrap64 (dy * dy)) + wrap64 (dz * dz))

/-- portal.rs is_in_range_of_point under release i64 semantics: the range
endpoint arithmetic wraps. -/
def Portal.is_in_range_of_point_i64 (p : Portal) (pos : BlockPos)
    (dimension : Dimension) : Bool :=
  let r := dimension.portal_search_range
  (decide (wrap64 (p.region.min.x - r) ≤ pos.x) &&
    decide (pos.x ≤ wrap64 (p.region.max.x + r))) &&
  (decide (wrap64 (p.region.min.z - r) ≤ pos.z) &&
    decide (pos.z ≤ wrap64 (p.region.max.z + r)))

/-- One iteration of the per-point loop of portal_destinations_naive under
release i64 semantics. -/
def naive_point_step_i64 (candidates : List Portal) (dim : Dimension) (pt : BlockPos)
    (acc : List Bool × Bool) : List Bool × Bool :=
  let distances := candidates.map (fun c =>
    if c.is_in_range_of_point_i64 pt dim then
      c.region.min_euclidean_distance_sq_to_point_i64 pt
    else I64_MAX)
  let min_distance := (distances.min?).getD I64_MAX
  if min_distance = I64_MAX then (acc.1, true)
  else (List.zipWith (fun f d => f || decide (d = min_distance)) acc.1 distances, acc.2)

/-- The whole per-point scan of portal_destinations_naive under release i64
semantics. -/
def naive_scan_i64 (candidates : List Portal) (dim : Dimension) (region : BlockRegion) :
    List Bool × Bool :=
  region.points.foldl (fun acc pt => naive_point_step_i64 candidates dim pt acc)
    (List.replicate candidates.length false, false)

/-- world.rs portal_destinations_naive under release i64 semantics: what the
compiled program computes when a distance overflows i64 (a debug build
panics at the first overflowing operation instead). -/
def WorldPortals.portal_destinations_naive_i64 (wp : WorldPortals) (dim : Dimension)
    (region : BlockRegion) : List Portal × Bool :=
  let candidates := wp.index dim
  let res := naive_scan_i64 candidates dim region
  ((List.zip candidates res.1).filterMap (fun cf => if cf.2 then some cf.1 else none),
   res.2)

/-- Filter where the predicate itself can fail (slice indexing panic). -/
def option_filter {α : Type} (f : α → Option Bool) : List α → Option (List α)
  | [] => some []
  | a :: rest =>
    match f a with
    | none => none
    | some b => (option_filter f rest).map (fun l => if b then a :: l else l)

/-- Map where the function can fail (slice indexing panic). -/
def option_map_list {α β : Type} (f : α → Option β) : List α → Option (List β)
  | [] => some []
  | a :: rest =>
    match f a with
    | none => none
    | some b => (option_map_list f rest).map (fun l => b :: l)

/-- Set each listed index of the flag array to true; none on an out-of-bounds
index (the panic of confirmed_reachable indexing). -/
def set_confirmed : List Bool → List Nat → Option (List Bool)
  | confirmed, [] => some confirmed
  | confirmed, p :: rest =>
    if p < confirmed.length then set_confirmed (confirmed.set p true) rest
    else none

/-- Lazily look for an index whose flag is false, in order, as the iterator
in the early-return check does; none on an out-of-bounds index. -/
def exists_unconfirmed (confirmed : List Bool) : List Nat → Option Bool
  | [] => some false
  | p :: rest =>
    match confirmed[p]? with
    | none => none
    | some true => exists_unconfirmed confirmed rest
    | some false => some true

/-- The candidates, among the given indices, in range of the corner point
with minimal distance to it (ties kept); none on an out-of-bounds index. -/
def closest_candidates_at (cands : List Portal) (dim : Dimension) (might : List Nat)
    (corner : BlockPos) : Option (List Nat) :=
  (option_map_list (fun p => (cands[p]?).map (fun c => (p, c))) might).map
    (fun pcs => (minima_by_opt_key pcs (fun pc =>
      if pc.2.is_in_range_of_point corner dim then
        some (pc.2.region.min_euclidean_distance_sq_to_point corner)
      else none)).map Prod.fst)

/-- Whether the winning sets differ between some pair of corners that differ
only along the given axis; the corner index has X in bit 0, Y in bit 1 and Z
in bit 2. -/
def should_split_along (closest : List (List Nat)) (a : Axis) : Bool :=
  (List.range 8).any (fun corner1 =>
    let corner2 := corner1 ^^^ (1 <<< a.idx)
    decide (corner1 < corner2) && decide (closest.getD corner1 [] ≠ closest.getD corner2 []))

/-- Split the region at coordinate + 0.5 if the coordinate lies inside the
region and both halves are nonempty, as the disambiguation step requires. -/
def try_split_point (region : BlockRegion) (a : Axis) (sp : Int) :
    Option (BlockRegion × BlockRegion) :=
  if region.min.index a ≤ sp ∧ sp ≤ region.max.index a then
    match region.split_at a sp with
    | (some lo, some hi) => some (lo, hi)
    | _ => none
  else none

/-- The inner loop of the disambiguation step for one unconfirmed candidate:
walk the axes in order, skip the ones already split along, and try the two
boundary coordinates of the candidate region as split points.  The outer
none is an out-of-bounds index. -/
def split_for_candidate (cands : List Portal) (region : BlockRegion)
    (axes_split : List Bool) (p : Nat) :
    List Axis → Option (Option (BlockRegion × BlockRegion))
  | [] => some none
  | a :: rest =>
    if axes_split.getD a.idx false then split_for_candidate cands region axes_split p rest
    else
      match cands[p]? with
      | none => none
      | some c =>
        match try_split_point region a (c.region.min.index a) with
        | some lohi => some (some lohi)
        | none =>
          match try_split_point region a (c.region.max.index a) with
          | some lohi => some (some lohi)
          | none => split_for_candidate cands region axes_split p rest

/-- The disambiguation step over the unconfirmed candidates in order: the
first applicable split wins.  The outer none is an out-of-bounds index. -/
def find_disambiguation_split (cands : List Portal) (region : BlockRegion)
    (axes_split : List Bool) : List Nat → Option (Option (BlockRegion × BlockRegion))
  | [] => some none
  | p :: rest =>
    match split_for_candidate cands region axes_split p Axis.ALL with
    | none => none
    | some (some lohi) => some (some lohi)
    | some none => find_disambiguation_split cands region axes_split rest

/-- Termination measure of the recursion: the sum of the extents of the
region along the three axes. -/
def region_measure (region : BlockRegion) : Nat :=
  (region.max.x - region.min.x).toNat + (region.max.y - region.min.y).toNat +
  (region.max.z - region.min.z).toNat

/-- One axis split of step 5: recurse into whichever of the two halves of
split_excluding_corners exist, in order, threading the state. -/
def split_excluding_step
    (recur : BlockRegion → List Bool → Bool → Option (List Bool × Bool))
    (region : BlockRegion) (a : Axis) (st : List Bool × Bool) :
    Option (List Bool × Bool) := do
  let stLo ← match (region.split_excluding_corners a).1 with
    | some lo => recur lo st.1 st.2
    | none => pure st
  match (region.split_excluding_corners a).2 with
    | some hi => recur hi stLo.1 stLo.2
    | none => pure stLo

/-- Step 5 for one axis: split and recurse when the winning sets disagree
between corners differing along this axis, otherwise leave the state. -/
def axis_step (recur : BlockRegion → List Bool → Bool → Option (List Bool × Bool))
    (region : BlockRegion) (a : Axis) (s : Bool) (st : List Bool × Bool) :
    Option (List Bool × Bool) :=
  if s then split_excluding_step recur region a st else some st

set_option maxHeartbeats 1000000 in
/-- world.rs mark_reachable_portals, with an explicit fuel bound standing for
termination of the recursion and none standing for a panic or fuel
exhaustion.  The state threaded through the calls is the pair of the
confirmed-reachable flags and the may-generate-new-portal flag. -/
def mark_reachable_portals :
    Nat → Dimension → BlockRegion → List Portal → List Nat → List Bool → Bool →
    Option (List Bool × Bool)
  | 0, _, _, _, _, _, _ => none
  | fuel + 1, dim, region, cands, might0, confirmed0, newP0 => do
    let might1 ← option_filter
      (fun p => (cands[p]?).map (fun c => c.is_in_range_of_region region dim)) might0
    let always ← option_filter
      (fun p => (cands[p]?).map (fun c => c.is_always_in_range_of_region region dim)) might1
    let maxDists ← option_map_list
      (fun p => (cands[p]?).map (fun c => region.max_euclidean_distance_sq_to c.region))
      always
    let smallest_max_distance := (maxDists.min?).getD I64_MAX
    let might ← option_filter
      (fun p => (cands[p]?).map
        (fun c => decide (region.min_euclidean_distance_sq_to c.region ≤
          smallest_max_distance)))
      might1
    let closest ← option_map_list (closest_candidates_at cands dim might) region.corners
    let newP1 := newP0 || closest.any List.isEmpty
    let confirmed1 ← set_confirmed confirmed0 closest.flatten
    let anyUnconf ← exists_unconfirmed confirmed1 might
    if anyUnconf = false then
      pure (confirmed1, newP1)
    else do
      let sX := should_split_along closest Axis.X
      let sY := should_split_along closest Axis.Y
      let sZ := should_split_along closest Axis.Z
      let recur := fun r c n => mark_reachable_portals fuel dim r cands might c n
      let st1 ← axis_step recur region Axis.X sX (confirmed1, newP1)
      let st2 ← axis_step recur region Axis.Y sY st1
      let st3 ← axis_step recur region Axis.Z sZ st2
      let unconf ← option_filter (fun p => (st3.1[p]?).map (fun b => !b)) might
      let osplit ← find_disambiguation_split cands region [sX, sY, sZ] unconf
      match osplit with
      | none => pure st3
      | some (lo, hi) => do
          let stLo ← recur lo st3.1 st3.2
          recur hi stLo.1 stLo.2

/-- The indices of the true flags, in order (the positions combinator). -/
def positions_true (l : List Bool) : List Nat :=
  (l.enum.filter (fun ib => ib.2)).map (fun ib => ib.1)

/-- world.rs portal_destinations: the production resolver.  The fuel given
to the recursion is one more than the region measure, which the totality
theorem shows is enough. -/
def WorldPortals.portal_destinations (wp : WorldPortals) (dim : Dimension)
    (region : BlockRegion) : Option (List Portal × Bool) := do
  let cands := wp.index dim
  let st ← mark_reachable_portals (region_measure region + 1) dim region cands
    (List.range cands.length) (List.replicate cands.length false) false
  let existing ← option_map_list (fun i => cands[i]?) (positions_true st.1)
  pure (existing, st.2)

/-- The game-semantics winner predicate: candidate i is in range of the point
and attains the minimum squared Euclidean distance from the point to the
candidate region among all in-range candidates. -/
def WinnerAt (cands : List Portal) (dim : Dimension) (pt : BlockPos)
    (i : Fin cands.length) : Prop :=
  (cands.get i).is_in_range_of_point pt dim = true ∧
  ∀ j : Fin cands.length, (cands.get j).is_in_range_of_point pt dim = true →
    (cands.get i).region.min_euclidean_distance_sq_to_point pt ≤
      (cands.get j).region.min_euclidean_distance_sq_to_point pt

instance (cands : List Portal) (dim : Dimension) (pt : BlockPos) (i : Fin cands.length) :
    Decidable (WinnerAt cands dim pt i) := by
  unfold WinnerAt; infer_instance

/-- No candidate is in range of the point: the game would generate a new
portal there. -/
def NoneInRangeAt (cands : List Portal) (dim : Dimension) (pt : BlockPos) : Prop :=
  ∀ j : Fin cands.length, (cands.get j).is_in_range_of_point pt dim = false

instance (cands : List Portal) (dim : Dimension) (pt : BlockPos) :
    Decidable (NoneInRangeAt cands dim pt) := by
  unfold NoneInRangeAt; infer_instance

/-- A nether portal whose search box covers only the low end of the gap
region below. -/
def gap_portal_a : Portal :=
  Portal.mk 0 "" (0, 0, 0)
    (BlockRegion.mk (BlockPos.mk (-16) 60 0) (BlockPos.mk (-16) 62 1)) PortalAxis.X

/-- A nether portal whose search box covers only the high end of the gap
region below. -/
def gap_portal_b : Portal :=
  Portal.mk 1 "" (0, 0, 0)
    (BlockRegion.mk (BlockPos.mk 18 60 0) (BlockPos.mk 18 62 1)) PortalAxis.X

/-- A nether portal that is in range only where gap_portal_a already wins,
and always strictly farther: it is never a winner anywhere in the gap
region. -/
def gap_portal_c : Portal :=
  Portal.mk 2 "" (0, 0, 0)
    (BlockRegion.mk (BlockPos.mk (-16) 1 0) (BlockPos.mk (-16) 3 1)) PortalAxis.X

/-- A destination region whose two ends are covered by the search boxes of
gap_portal_a and gap_portal_b while its middle point x = 1 is covered by
neither. -/
def gap_region : BlockRegion :=
  BlockRegion.mk (BlockPos.mk 0 64 0) (BlockPos.mk 2 64 0)

/-- A portal in range of the origin whose exact squared distance to it
exceeds i64::MAX, so the i64 distance computation overflows there. -/
def far_portal : Portal :=
  Portal.mk 0 "" (0, 0, 0)
    (BlockRegion.mk (BlockPos.mk 0 3037000500 0) (BlockPos.mk 1 3037000500 1))
    PortalAxis.X

/-- A portal one block above the origin: the unique true winner there. -/
def near_portal : Portal :=
  Portal.mk 1 "" (0, 0, 0)
    (BlockRegion.mk (BlockPos.mk 0 1 0) (BlockPos.mk 1 1 1)) PortalAxis.X

/-- A nether portal whose search box covers the whole witness region for the
unique-candidate scenario. -/
def covering_portal : Portal :=
  Portal.mk 2 "" (0, 0, 0)
    (BlockRegion.mk (BlockPos.mk 1 60 0) (BlockPos.mk 1 62 1)) PortalAxis.X

lemma i64_min_eq (a b : Int) : i64_min a b = min a b := by
  unfold i64_min; split <;> omega

lemma i64_max_eq (a b : Int) : i64_max a b = max a b := by
  unfold i64_max; split <;> omega

lemma BlockPos.index_set_self (p : BlockPos) (a : Axis) (v : Int) :
    (p.setIndex a v).index a = v := by
  cases a <;> rfl

lemma mem_intRange (lo hi x : Int) : x ∈ intRange lo hi ↔ lo ≤ x ∧ x ≤ hi := by
  unfold intRange
  constructor
  · intro h
    obtain ⟨k, hk, rfl⟩ := List.mem_map.1 h
    have hk2 := List.mem_range.1 hk
    omega
  · rintro ⟨h1, h2⟩
    exact List.mem_map.2 ⟨(x - lo).toNat, List.mem_range.2 (by omega), by omega⟩

lemma mem_points (r : BlockRegion) (p : BlockPos) :
    p ∈ r.points ↔ r.containsPos p := by
  unfold BlockRegion.points BlockRegion.containsPos
  constructor
  · intro h
    obtain ⟨z, hz, h2⟩ := List.mem_flatMap.1 h
    obtain ⟨y, hy, h3⟩ := List.mem_flatMap.1 h2
    obtain ⟨x, hx, rfl⟩ := List.mem_map.1 h3
    rw [mem_intRange] at hz hy hx
    simp only
    omega
  · rintro ⟨h1, h2, h3, h4, h5, h6⟩
    exact List.mem_flatMap.2 ⟨p.z, (mem_intRange _ _ _).2 ⟨h5, h6⟩,
      List.mem_flatMap.2 ⟨p.y, (mem_intRange _ _ _).2 ⟨h3, h4⟩,
        List.mem_map.2 ⟨p.x, (mem_intRange _ _ _).2 ⟨h1, h2⟩, rfl⟩⟩⟩

lemma foldl_min_min {κ : Type} [LinearOrder κ] :
    ∀ (l : List κ) (a b : κ), l.foldl min (min a b) = min a (l.foldl min b) := by
  intro l
  induction l with
  | nil => intro a b; rfl
  | cons c l ih =>
    intro a b
    simp only [List.foldl_cons, min_assoc, ih]

lemma min?_cons_eq {κ : Type} [LinearOrder κ] (k : κ) (l : List κ) :
    (k :: l).min? = some (match l.min? with | none => k | some n => min k n) := by
  cases l with
  | nil => rfl
  | cons b bs =>
    show some (List.foldl min (min k b) bs) = some (min k (List.foldl min b bs))
    rw [foldl_min_min]

lemma foldl_min_le_mem {κ : Type} [LinearOrder κ] :
    ∀ (l : List κ) (a b : κ), b ∈ l → l.foldl min a ≤ b := by
  intro l
  induction l with
  | nil => intro a b h; cases h
  | cons c l ih =>
    intro a b h
    rcases List.mem_cons.1 h with rfl | h
    · calc l.foldl min (min a b) ≤ min a b := by
            clear ih h
            induction l generalizing a b with
            | nil => exact le_refl _
            | cons d l ih2 => exact le_trans (ih2 (min a b) d) (min_le_left _ _)
          _ ≤ b := min_le_right _ _
    · exact ih _ _ h

lemma foldl_min_le_init {κ : Type} [LinearOrder κ] :
    ∀ (l : List κ) (a : κ), l.foldl min a ≤ a := by
  intro l
  induction l with
  | nil => intro a; exact le_refl _
  | cons c l ih => intro a; exact le_trans (ih (min a c)) (min_le_left _ _)

lemma foldl_min_mem {κ : Type} [LinearOrder κ] :
    ∀ (l : List κ) (a : κ), l.foldl min a = a ∨ l.foldl min a ∈ l := by
  intro l
  induction l with
  | nil => intro a; exact Or.inl rfl
  | cons c l ih =>
    intro a
    rcases ih (min a c) with h | h
    · rcases min_choice a c with h2 | h2
      · exact Or.inl (by rw [List.foldl_cons, h, h2])
      · exact Or.inr (List.mem_cons.2 (Or.inl (by rw [List.foldl_cons, h, h2])))
    · exact Or.inr (List.mem_cons.2 (Or.inr h))

lemma min?_le_of_mem {κ : Type} [LinearOrder κ] {l : List κ} {n b : κ}
    (h : l.min? = some n) (hb : b ∈ l) : n ≤ b := by
  cases l with
  | nil => cases hb
  | cons c cs =>
    have : n = cs.foldl min c := by
      have : (c :: cs).min? = some (cs.foldl min c) := rfl
      rw [h] at this
      exact (Option.some.injEq _ _ ▸ this)
    subst this
    rcases List.mem_cons.1 hb with rfl | hb
    · exact foldl_min_le_init _ _
    · exact foldl_min_le_mem _ _ _ hb

lemma min?_mem {κ : Type} [LinearOrder κ] {l : List κ} {n : κ}
    (h : l.min? = some n) : n ∈ l := by
  cases l with
  | nil => cases h
  | cons c cs =>
    have h2 : n = cs.foldl min c := by
      have h3 : (c :: cs).min? = some (cs.foldl min c) := rfl
      rw [h] at h3
      exact (Option.some.injEq _ _ ▸ h3)
    subst h2
    rcases foldl_min_mem cs c with h4 | h4
    · exact List.mem_cons.2 (Or.inl h4)
    · exact List.mem_cons.2 (Or.inr h4)

lemma minima_loop_some {α κ : Type} [LinearOrder κ] (f : α → Option κ) (xs : List α) :
    ∀ (m : κ) (ret : List α),
    minima_by_opt_key_loop f (some m) ret xs =
      match (xs.filterMap f).min? with
      | none => ret
      | some n =>
        if n < m then xs.filter (fun x => f x = some n)
        else if n = m then ret ++ xs.filter (fun x => f x = some m)
        else ret := by
  induction xs with
  | nil => intro m ret; rfl
  | cons x rest ih =>
    intro m ret
    rcases hx : f x with _ | k
    · rw [minima_by_opt_key_loop]
      rw [List.filterMap_cons_none hx]
      simp only [hx]
      rw [ih]
      rcases hmin : (rest.filterMap f).min? with _ | n
      · rfl
      · simp only [List.filter_cons, hx]
        split <;> split <;> simp_all
    · rw [minima_by_opt_key_loop]
      simp only [hx]
      rw [List.filterMap_cons_some hx, min?_cons_eq]
      rcases hmin : (rest.filterMap f).min? with _ | n
      · -- rest has no keys at all, so every filter by a key is empty
        have hfil : ∀ q : κ, rest.filter (fun y => f y = some q) = [] := by
          intro q
          rw [List.filter_eq_nil_iff]
          intro y hy hcon
          have hq : q ∈ rest.filterMap f := List.mem_filterMap.2 ⟨y, hy, by simpa using hcon⟩
          rw [List.min?_eq_none_iff.1 hmin] at hq
          cases hq
        by_cases hk : k < m
        · rw [if_pos hk, ih, hmin]
          simp [List.filter_cons, hx, hfil, hk]
        · by_cases hmk : m = k
          · subst hmk
            rw [if_neg hk, if_pos rfl, ih, hmin]
            simp [List.filter_cons, hx, hfil, hk]
          · rw [if_neg hk, if_neg (by simpa using hmk), ih, hmin]
            have h2 : ¬ k = m := fun hh => hmk hh.symm
            simp [hk, h2]
      · -- rest has minimum key n
        have hfil_lt : ∀ q : κ, q < n → rest.filter (fun y => f y = some q) = [] := by
          intro q hq
          rw [List.filter_eq_nil_iff]
          intro y hy hcon
          have hq2 : q ∈ rest.filterMap f := List.mem_filterMap.2 ⟨y, hy, by simpa using hcon⟩
          exact absurd (min?_le_of_mem hmin hq2) (not_le.2 hq)
        by_cases hk : k < m
        · rw [if_pos hk, ih, hmin]
          dsimp only
          rcases lt_trichotomy n k with h1 | h1 | h1
          · have hN : min k n = n := min_eq_right h1.le
            rw [hN, if_pos h1, if_pos (lt_trans h1 hk)]
            simp [List.filter_cons, hx, h1.ne']
          · subst h1
            rw [min_self, if_neg (lt_irrefl n), if_pos rfl, if_pos hk]
            simp [List.filter_cons, hx]
          · have hN : min k n = k := min_eq_left h1.le
            rw [hN, if_neg (not_lt.2 h1.le), if_neg (fun hh : n = k => h1.ne hh.symm),
              if_pos hk]
            simp [List.filter_cons, hx, hfil_lt k h1]
        · by_cases hmk : m = k
          · subst hmk
            rw [if_neg hk, if_pos rfl, ih, hmin]
            dsimp only
            rcases lt_trichotomy n m with h1 | h1 | h1
            · have hN : min m n = n := min_eq_right h1.le
              rw [hN, if_pos h1, if_pos h1]
              simp [List.filter_cons, hx, h1.ne']
            · subst h1
              rw [min_self, if_neg (lt_irrefl n), if_neg (lt_irrefl n), if_pos rfl,
                if_pos rfl]
              simp [List.filter_cons, hx]
            · have hN : min m n = m := min_eq_left h1.le
              rw [hN, if_neg (not_lt.2 h1.le), if_neg h1.ne', if_neg (lt_irrefl m),
                if_pos rfl]
              simp [List.filter_cons, hx, hfil_lt m h1]
          · have hmlt : m < k := lt_of_le_of_ne (not_lt.1 hk) hmk
            rw [if_neg hk, if_neg (by simpa using hmk), ih, hmin]
            dsimp only
            rcases lt_trichotomy n m with h1 | h1 | h1
            · have hN : min k n = n := min_eq_right (le_of_lt (lt_trans h1 hmlt))
              rw [hN, if_pos h1, if_pos h1]
              simp [List.filter_cons, hx, (lt_trans h1 hmlt).ne']
            · subst h1
              have hN : min k n = n := min_eq_right hmlt.le
              rw [hN, if_neg (lt_irrefl n), if_neg (lt_irrefl n), if_pos rfl, if_pos rfl]
              simp [List.filter_cons, hx, hmlt.ne']
            · have hN : m < min k n := lt_min hmlt h1
              rw [if_neg (not_lt.2 hN.le), if_neg hN.ne', if_neg (not_lt.2 h1.le),
                if_neg h1.ne']

lemma minima_loop_start {α κ : Type} [LinearOrder κ] (f : α → Option κ) (xs : List α) :
    ∀ ret : List α,
    minima_by_opt_key_loop f none ret xs =
      match (xs.filterMap f).min? with
      | none => ret
      | some n => xs.filter (fun x => f x = some n) := by
  induction xs with
  | nil => intro ret; rfl
  | cons x rest ih =>
    intro ret
    rcases hx : f x with _ | k
    · rw [minima_by_opt_key_loop]
      simp only [hx]
      rw [ih, List.filterMap_cons_none hx]
      rcases hmin : (rest.filterMap f).min? with _ | n
      · rfl
      · dsimp only
        simp [List.filter_cons, hx]
    · rw [minima_by_opt_key_loop]
      simp only [hx]
      rw [minima_loop_some, List.filterMap_cons_some hx, min?_cons_eq]
      rcases hmin : (rest.filterMap f).min? with _ | n
      · dsimp only
        have hfil : rest.filter (fun y => f y = some k) = [] := by
          rw [List.filter_eq_nil_iff]
          intro y hy hcon
          have hq : k ∈ rest.filterMap f := List.mem_filterMap.2 ⟨y, hy, by simpa using hcon⟩
          rw [List.min?_eq_none_iff.1 hmin] at hq
          cases hq
        simp [List.filter_cons, hx, hfil]
      · dsimp only
        have hfil_lt : ∀ q : κ, q < n → rest.filter (fun y => f y = some q) = [] := by
          intro q hq
          rw [List.filter_eq_nil_iff]
          intro y hy hcon
          have hq2 : q ∈ rest.filterMap f := List.mem_filterMap.2 ⟨y, hy, by simpa using hcon⟩
          exact absurd (min?_le_of_mem hmin hq2) (not_le.2 hq)
        rcases lt_trichotomy n k with h1 | h1 | h1
        · have hN : min k n = n := min_eq_right h1.le
          rw [hN, if_pos h1]
          simp [List.filter_cons, hx, h1.ne']
        · subst h1
          rw [min_self, if_neg (lt_irrefl n), if_pos rfl]
          simp [List.filter_cons, hx]
        · have hN : min k n = k := min_eq_left h1.le
          rw [hN, if_neg (not_lt.2 h1.le), if_neg (fun hh : n = k => h1.ne hh.symm)]
          simp [List.filter_cons, hx, hfil_lt k h1]

/-- Claim C9: minima_by_opt_key returns exactly the elements whose key is
some of the minimum key occurring among the some-keys of the sequence,
preserving their input order (stated as a filter of the input list); and it
returns the empty list exactly when every element has key none. -/
theorem claim_C9_minima_by_opt_key {α κ : Type} [LinearOrder κ] (xs : List α) (f : α → Option κ) :
    (∀ m : κ, (xs.filterMap f).min? = some m →
        minima_by_opt_key xs f = xs.filter (fun x => f x = some m)) ∧
    (minima_by_opt_key xs f = [] ↔ ∀ x ∈ xs, f x = none) := by
  unfold minima_by_opt_key
  rw [minima_loop_start]
  constructor
  · intro m hmin
    rw [hmin]
  · rcases hmin : (xs.filterMap f).min? with _ | n
    · dsimp only
      rw [List.min?_eq_none_iff] at hmin
      rw [List.filterMap_eq_nil_iff] at hmin
      exact iff_of_true rfl hmin
    · dsimp only
      obtain ⟨y, hy, hfy⟩ := List.mem_filterMap.1 (min?_mem hmin)
      constructor
      · intro hfil
        rw [List.filter_eq_nil_iff] at hfil
        exact absurd (by simpa using hfy) (hfil y hy)
      · intro hall
        rw [hall y hy] at hfy
        cases hfy

/-- Witness for C9 on the test vector from the source test suite. -/
theorem claim_C9_minima_by_opt_key_witness :
    minima_by_opt_key
      [((0 : Nat), some (4 : Nat)), (1, some 2), (2, some 1), (3, none), (4, none),
       (5, some 3), (6, some 4), (7, some 1), (8, some 6)] Prod.snd
      = [(2, some 1), (7, some 1)] := by
  have h := (claim_C9_minima_by_opt_key
    [((0 : Nat), some (4 : Nat)), (1, some 2), (2, some 1), (3, none), (4, none),
     (5, some 3), (6, some 4), (7, some 1), (8, some 6)] Prod.snd).1 1 (by decide)
  rw [h]
  decide

lemma dim_y_range (dim : Dimension) : dim.y_min + 6 ≤ dim.y_max := by
  cases dim <;> decide

lemma adjust_min_preserves (p : Portal) (dim : Dimension) (new_min : BlockPos)
    (lock_size : Bool) (hv : p.validIn dim)
    (hs : p.opSafe dim (PortalOp.adjMin new_min lock_size)) :
    (p.adjust_min new_min lock_size dim).validIn dim := by
  have hyr := dim_y_range dim
  cases lock_size <;> cases hax : p.axis <;>
    · simp only [Portal.validIn, Portal.adjust_min, Portal.opSafe, hax,
        Portal.width_axis, Portal.depth_axis, PortalAxis.other, PortalAxis.toAxis,
        BlockPos.setIndex, BlockPos.index, saturating_add, saturating_sub, i64_clamp,
        i64_min_eq, i64_max_eq, I64_MIN, I64_MAX, Portal.MIN_DW, Portal.MIN_DH,
        Portal.MIN_WIDTH, Portal.MIN_HEIGHT, inI64, Bool.false_eq_true, if_false,
        if_true, ite_true, ite_false] at hv hs ⊢
      omega

lemma adjust_max_preserves (p : Portal) (dim : Dimension) (new_max : BlockPos)
    (lock_size : Bool) (hv : p.validIn dim)
    (hs : p.opSafe dim (PortalOp.adjMax new_max lock_size)) :
    (p.adjust_max new_max lock_size dim).validIn dim := by
  have hyr := dim_y_range dim
  cases lock_size <;> cases hax : p.axis <;>
    · simp only [Portal.validIn, Portal.adjust_max, Portal.opSafe, hax,
        Portal.width_axis, Portal.depth_axis, PortalAxis.other, PortalAxis.toAxis,
        BlockPos.setIndex, BlockPos.index, saturating_add, saturating_sub, i64_clamp,
        i64_min_eq, i64_max_eq, I64_MIN, I64_MAX, Portal.MIN_DW, Portal.MIN_DH,
        Portal.MIN_WIDTH, Portal.MIN_HEIGHT, inI64, Bool.false_eq_true, if_false,
        if_true, ite_true, ite_false] at hv hs ⊢
      omega

lemma adjust_width_preserves (p : Portal) (dim : Dimension) (new_width : Int)
    (hv : p.validIn dim) (hs : p.opSafe dim (PortalOp.adjWidth new_width)) :
    (p.adjust_width new_width).validIn dim := by
  cases hax : p.axis <;>
    · simp only [Portal.validIn, Portal.adjust_width, Portal.opSafe, hax,
        Portal.width_axis, Portal.depth_axis, PortalAxis.other, PortalAxis.toAxis,
        BlockPos.setIndex, BlockPos.index, saturating_add, i64_min_eq, i64_max_eq,
        I64_MIN, I64_MAX, Portal.MIN_WIDTH, inI64] at hv hs ⊢
      omega

lemma adjust_height_preserves (p : Portal) (dim : Dimension) (new_height : Int)
    (hv : p.validIn dim) :
    (p.adjust_height new_height dim).validIn dim := by
  cases dim <;> cases hax : p.axis <;>
    · simp only [Portal.adjust_height, Portal.MIN_HEIGHT, saturating_add,
        i64_min_eq, i64_max_eq, I64_MIN, I64_MAX, Dimension.y_min, Dimension.y_max]
      split_ifs <;>
        simp only [Portal.validIn, Portal.width_axis, Portal.depth_axis,
          PortalAxis.other, PortalAxis.toAxis, hax, BlockPos.index,
          BlockPos.setIndex, Dimension.y_min, Dimension.y_max] at hv ⊢ <;>
        omega

lemma wrap64_eq_self (x : Int) (h : inI64 x) : wrap64 x = x := by
  obtain ⟨h1, h2⟩ := h
  simp only [I64_MIN, I64_MAX] at h1 h2
  unfold wrap64
  omega

lemma min_range_pos_i64_wrap (lo hi pos : Int) :
    min_range_distance_to_pos_i64 lo hi pos =
      wrap64 (min_range_distance_to_pos lo hi pos) := by
  unfold min_range_distance_to_pos_i64 min_range_distance_to_pos
  split_ifs <;> first
    | rfl
    | (unfold wrap64; norm_num)

/-- Wherever the exact squared point distance is representable in i64, the
release i64 computation agrees with it: every intermediate value stays in
range, so the exact-integer embedding of the distance is faithful exactly
under the no-overflow hypothesis of the amended C2 theorem. -/
lemma min_dist_point_i64_eq (r : BlockRegion) (p : BlockPos)
    (h : r.min_euclidean_distance_sq_to_point p ≤ I64_MAX) :
    r.min_euclidean_distance_sq_to_point_i64 p =
      r.min_euclidean_distance_sq_to_point p := by
  unfold BlockRegion.min_euclidean_distance_sq_to_point_i64
  unfold BlockRegion.min_euclidean_distance_sq_to_point at h ⊢
  dsimp only at h ⊢
  rw [min_range_pos_i64_wrap, min_range_pos_i64_wrap, min_range_pos_i64_wrap]
  set dx := min_range_distance_to_pos r.min.x r.max.x p.x with hdx
  set dy := min_range_distance_to_pos r.min.y r.max.y p.y with hdy
  set dz := min_range_distance_to_pos r.min.z r.max.z p.z with hdz
  have hx0 : 0 ≤ dx := by rw [hdx]; unfold min_range_distance_to_pos; split_ifs <;> omega
  have hy0 : 0 ≤ dy := by rw [hdy]; unfold min_range_distance_to_pos; split_ifs <;> omega
  have hz0 : 0 ≤ dz := by rw [hdz]; unfold min_range_distance_to_pos; split_ifs <;> omega
  have hxx : dx * dx ≤ I64_MAX := by nlinarith [mul_self_nonneg dy, mul_self_nonneg dz]
  have hyy : dy * dy ≤ I64_MAX := by nlinarith [mul_self_nonneg dx, mul_self_nonneg dz]
  have hzz : dz * dz ≤ I64_MAX := by nlinarith [mul_self_nonneg dx, mul_self_nonneg dy]
  have hxb : dx ≤ 3037000499 := by
    by_contra hc
    push_neg at hc
    have h2 : (3037000500 : Int) ≤ dx := by omega
    have h3 : (3037000500 : Int) * 3037000500 ≤ dx * dx :=
      mul_le_mul h2 h2 (by norm_num) (by omega)
    simp only [I64_MAX] at hxx
    norm_num at h3
    linarith
  have hyb : dy ≤ 3037000499 := by
    by_contra hc
    push_neg at hc
    have h2 : (3037000500 : Int) ≤ dy := by omega
    have h3 : (3037000500 : Int) * 3037000500 ≤ dy * dy :=
      mul_le_mul h2 h2 (by norm_num) (by omega)
    simp only [I64_MAX] at hyy
    norm_num at h3
    linarith
  have hzb : dz ≤ 3037000499 := by
    by_contra hc
    push_neg at hc
    have h2 : (3037000500 : Int) ≤ dz := by omega
    have h3 : (3037000500 : Int) * 3037000500 ≤ dz * dz :=
      mul_le_mul h2 h2 (by norm_num) (by omega)
    simp only [I64_MAX] at hzz
    norm_num at h3
    linarith
  have hwx : wrap64 dx = dx :=
    wrap64_eq_self dx ⟨by simp only [I64_MIN]; omega, by simp only [I64_MAX]; omega⟩
  have hwy : wrap64 dy = dy :=
    wrap64_eq_self dy ⟨by simp only [I64_MIN]; omega, by simp only [I64_MAX]; omega⟩
  have hwz : wrap64 dz = dz :=
    wrap64_eq_self dz ⟨by simp only [I64_MIN]; omega, by simp only [I64_MAX]; omega⟩
  rw [hwx, hwy, hwz]
  have hwxx : wrap64 (dx * dx) = dx * dx :=
    wrap64_eq_self _ ⟨by simp only [I64_MIN]; nlinarith, hxx⟩
  have hwyy : wrap64 (dy * dy) = dy * dy :=
    wrap64_eq_self _ ⟨by simp only [I64_MIN]; nlinarith, hyy⟩
  have hwzz : wrap64 (dz * dz) = dz * dz :=
    wrap64_eq_self _ ⟨by simp only [I64_MIN]; nlinarith, hzz⟩
  rw [hwxx, hwyy, hwzz]
  have hwxy : wrap64 (dx * dx + dy * dy) = dx * dx + dy * dy :=
    wrap64_eq_self _ ⟨by simp only [I64_MIN]; nlinarith,
      by nlinarith [mul_self_nonneg dz]⟩
  rw [hwxy]
  exact wrap64_eq_self _ ⟨by simp only [I64_MIN]; nlinarith, h⟩

lemma adjust_axis_preserves (p : Portal) (dim : Dimension) (new_axis : PortalAxis)
    (hv : p.validIn dim) (hs : p.opSafe dim (PortalOp.adjAxis new_axis)) :
    (p.adjust_axis new_axis).validIn dim := by
  cases hax : p.axis <;> cases new_axis <;>
    · simp only [Portal.validIn, Portal.adjust_axis, Portal.opSafe, wrap64, inI64,
        I64_MIN, I64_MAX, hax, Portal.width_axis, Portal.depth_axis, PortalAxis.other,
        PortalAxis.toAxis, BlockPos.setIndex, BlockPos.index] at hv hs ⊢
      omega

lemma applyOp_preserves (p : Portal) (dim : Dimension) (op : PortalOp)
    (hv : p.validIn dim) (hs : p.opSafe dim op) :
    (p.applyOp dim op).validIn dim := by
  cases op with
  | adjMin m l => exact adjust_min_preserves p dim m l hv hs
  | adjMax m l => exact adjust_max_preserves p dim m l hv hs
  | adjWidth w => exact adjust_width_preserves p dim w hv hs
  | adjHeight h => exact adjust_height_preserves p dim h hv
  | adjAxis a => exact adjust_axis_preserves p dim a hv hs

/-- Claim C5 counterexample: the claim fails for truly arbitrary closures
because of i64 saturation: starting from a valid 2 wide, 3 tall overworld
portal, one adjust_min call whose closure writes x = i64 MAX with lock_size
set saturates the width computation and leaves a portal of width 1. -/
theorem claim_C5_counterexample :
    (Portal.mk 0 "" (0, 0, 0)
        (BlockRegion.mk (BlockPos.mk 0 0 0) (BlockPos.mk 1 2 0))
        PortalAxis.Z).validIn Dimension.Overworld ∧
    ¬ ((Portal.mk 0 "" (0, 0, 0)
        (BlockRegion.mk (BlockPos.mk 0 0 0) (BlockPos.mk 1 2 0))
        PortalAxis.Z).applyOps Dimension.Overworld
          [PortalOp.adjMin (BlockPos.mk 9223372036854775807 0 0) true]).validIn
      Dimension.Overworld := by
  constructor
  · decide
  · decide

/-- Claim C5 amended: from a valid portal, any sequence of adjust operations
preserves width at least 2, height at least 3 and legal vertical bounds,
provided additionally that along the trajectory the i64 arithmetic is exact:
no saturating operation saturates, and the plain subtraction and addition in
adjust_axis stay in the representable range (the original claim, with truly
arbitrary closure outputs, fails only at the edge of the i64 range, through
saturation or through the wrapping overflow of adjust_axis). -/
theorem claim_C5_adjust_invariants (p : Portal) (dim : Dimension) (ops : List PortalOp)
    (hv : p.validIn dim) (hs : p.opsSafe dim ops) :
    (p.applyOps dim ops).validIn dim := by
  induction ops generalizing p with
  | nil => exact hv
  | cons op rest ih =>
    unfold Portal.opsSafe at hs
    exact ih (p.applyOp dim op) (applyOp_preserves p dim op hv hs.1) hs.2

/-- Witness for the amended C5: a concrete valid portal stays valid under a
concrete safe sequence of adjustments. -/
theorem claim_C5_adjust_invariants_witness :
    ((Portal.mk 0 "" (0, 0, 0)
        (BlockRegion.mk (BlockPos.mk 0 0 0) (BlockPos.mk 1 2 0))
        PortalAxis.Z).applyOps Dimension.Overworld
      [PortalOp.adjWidth 5, PortalOp.adjHeight 4,
       PortalOp.adjMin (BlockPos.mk 10 200 (-3)) true,
       PortalOp.adjAxis PortalAxis.X,
       PortalOp.adjMax (BlockPos.mk 20 250 7) false]).validIn Dimension.Overworld := by
  exact claim_C5_adjust_invariants
    (Portal.mk 0 "" (0, 0, 0)
      (BlockRegion.mk (BlockPos.mk 0 0 0) (BlockPos.mk 1 2 0))
      PortalAxis.Z) Dimension.Overworld
    [PortalOp.adjWidth 5, PortalOp.adjHeight 4,
     PortalOp.adjMin (BlockPos.mk 10 200 (-3)) true,
     PortalOp.adjAxis PortalAxis.X,
     PortalOp.adjMax (BlockPos.mk 20 250 7) false]
    (by decide) (by decide)

/-- Claim C1 evaluated at the failing input: on a valid destination region
whose middle is out of range of every candidate while each end has its own
winner, the naive resolver reports new_portal = true but the production
resolver returns new_portal = false, because it returns early once every
surviving candidate is confirmed at some corner, without checking interior
points for coverage.  The existing-portal sets agree; the flags differ. -/
theorem claim_C1_code_bug :
    gap_region.isValid ∧
    (WorldPortals.mk [] [gap_portal_a, gap_portal_b]).portal_destinations_naive
      Dimension.Nether gap_region = ([gap_portal_a, gap_portal_b], true) ∧
    (WorldPortals.mk [] [gap_portal_a, gap_portal_b]).portal_destinations
      Dimension.Nether gap_region = some ([gap_portal_a, gap_portal_b], false) := by
  refine ⟨by decide, by decide, by decide⟩

/-- Claim C8 evaluated at the failing input: gap_portal_c is never a winner
at any point of the region, yet removing it changes the production result:
with it present the algorithm cannot take the early return, splits, and
discovers the uncovered middle (new_portal = true); without it the early
return fires and new_portal = false. -/
theorem claim_C8_code_bug :
    (∀ pt ∈ gap_region.points,
      ¬ WinnerAt [gap_portal_a, gap_portal_b, gap_portal_c] Dimension.Nether pt
        (Fin.mk 2 (by decide))) ∧
    (WorldPortals.mk [] [gap_portal_a, gap_portal_b, gap_portal_c]).portal_destinations
      Dimension.Nether gap_region = some ([gap_portal_a, gap_portal_b], true) ∧
    (WorldPortals.mk [] [gap_portal_a, gap_portal_b]).portal_destinations
      Dimension.Nether gap_region = some ([gap_portal_a, gap_portal_b], false) := by
  refine ⟨by decide, by decide, by decide⟩

lemma min?_getD_le_mem {l : List Int} {b : Int} (d : Int) (hb : b ∈ l) :
    (l.min?).getD d ≤ b := by
  cases l with
  | nil => cases hb
  | cons c cs =>
    show (cs.foldl min c) ≤ b
    rcases List.mem_cons.1 hb with rfl | hb
    · exact foldl_min_le_init _ _
    · exact foldl_min_le_mem _ _ _ hb

lemma min?_getD_mem_or {l : List Int} (d : Int) :
    (l.min?).getD d = d ∨ (l.min?).getD d ∈ l := by
  cases hm : l.min? with
  | none => exact Or.inl rfl
  | some n => exact Or.inr (by simpa using min?_mem hm)

lemma getD_eq_get {α : Type} (l : List α) (i : Nat) (h : i < l.length) (d : α) :
    l.getD i d = l.get ⟨i, h⟩ := by
  induction l generalizing i with
  | nil => cases h
  | cons x xs ih =>
    cases i with
    | zero => rfl
    | succ k => exact ih k (Nat.lt_of_succ_lt_succ h)

lemma getD_zipWith_of_lt {α β γ : Type} (f : α → β → γ) (a : List α) (b : List β)
    (i : Nat) (h1 : i < a.length) (h2 : i < b.length) (d : γ) (d1 : α) (d2 : β) :
    (List.zipWith f a b).getD i d = f (a.getD i d1) (b.getD i d2) := by
  induction a generalizing b i with
  | nil => cases h1
  | cons x xs ih =>
    cases b with
    | nil => cases h2
    | cons y ys =>
      cases i with
      | zero => rfl
      | succ k => exact ih ys k (Nat.lt_of_succ_lt_succ h1) (Nat.lt_of_succ_lt_succ h2)

lemma getD_map_of_lt {α β : Type} (f : α → β) (l : List α) (i : Nat)
    (h : i < l.length) (d : β) (d1 : α) :
    (l.map f).getD i d = f (l.getD i d1) := by
  induction l generalizing i with
  | nil => cases h
  | cons x xs ih =>
    cases i with
    | zero => rfl
    | succ k => exact ih k (Nat.lt_of_succ_lt_succ h)

lemma naive_point_step_spec (cands : List Portal) (dim : Dimension) (pt : BlockPos)
    (flags : List Bool) (newP : Bool) (hlen : flags.length = cands.length)
    (hov : ∀ j : Fin cands.length, (cands.get j).is_in_range_of_point pt dim = true →
      (cands.get j).region.min_euclidean_distance_sq_to_point pt < I64_MAX) :
    (naive_point_step cands dim pt (flags, newP)).1.length = cands.length ∧
    (naive_point_step cands dim pt (flags, newP)).2
      = (newP || decide (NoneInRangeAt cands dim pt)) ∧
    ∀ i : Fin cands.length,
      (naive_point_step cands dim pt (flags, newP)).1.getD i.1 false
        = (flags.getD i.1 false || decide (WinnerAt cands dim pt i)) := by
  unfold naive_point_step
  set dfun : Portal → Int := fun c =>
    if c.is_in_range_of_point pt dim then c.region.min_euclidean_distance_sq_to_point pt
    else I64_MAX with hdfun
  set distances := cands.map dfun with hdist
  have hdlen : distances.length = cands.length := List.length_map _ _
  set m := (distances.min?).getD I64_MAX with hmdef
  by_cases hnone : NoneInRangeAt cands dim pt
  · have hall : ∀ d ∈ distances, d = I64_MAX := by
      intro d hd
      obtain ⟨c, hc, rfl⟩ := List.mem_map.1 hd
      obtain ⟨j, rfl⟩ := List.mem_iff_get.1 hc
      simp only [hdfun, hnone j, Bool.false_eq_true, if_false]
    have hm : m = I64_MAX := by
      rcases min?_getD_mem_or (l := distances) I64_MAX with h | h
      · exact h
      · exact hall _ h
    rw [if_pos hm]
    refine ⟨hlen, by simp [hnone], fun i => ?_⟩
    have hwin : ¬ WinnerAt cands dim pt i := fun hw => by
      have := hnone i
      rw [hw.1] at this
      cases this
    simp [hwin]
  · have hex : ∃ j : Fin cands.length, (cands.get j).is_in_range_of_point pt dim = true := by
      by_contra hcon
      push_neg at hcon
      exact hnone (fun j => by
        have := hcon j
        cases hj : (cands.get j).is_in_range_of_point pt dim
        · rfl
        · exact absurd hj this)
    obtain ⟨j0, hj0⟩ := hex
    have hj0mem : dfun (cands.get j0) ∈ distances :=
      List.mem_map.2 ⟨cands.get j0, List.get_mem cands j0.1 j0.2, rfl⟩
    have hj0val : dfun (cands.get j0)
        = (cands.get j0).region.min_euclidean_distance_sq_to_point pt := by
      simp only [hdfun, hj0, if_true]
    have hmle : m ≤ (cands.get j0).region.min_euclidean_distance_sq_to_point pt := by
      rw [← hj0val]
      exact min?_getD_le_mem _ hj0mem
    have hmlt : m < I64_MAX := lt_of_le_of_lt hmle (hov j0 hj0)
    rw [if_neg (ne_of_lt hmlt)]
    have hmem_le : ∀ d ∈ distances, m ≤ d := fun d hd => min?_getD_le_mem _ hd
    refine ⟨?_, by simp [hnone], fun i => ?_⟩
    · rw [List.length_zipWith, hlen, hdlen]
      exact Nat.min_self _
    · have hif : i.1 < flags.length := by rw [hlen]; exact i.2
      have hid : i.1 < distances.length := by rw [hdlen]; exact i.2
      rw [getD_zipWith_of_lt _ flags distances i.1 hif hid false false 0]
      congr 1
      rw [getD_map_of_lt dfun cands i.1 i.2 0 (cands.get i), getD_eq_get cands i.1 i.2]
      have hiff : (dfun (cands.get ⟨i.1, i.2⟩) = m) ↔ WinnerAt cands dim pt i := by
        constructor
        · intro h
          by_cases hir : (cands.get i).is_in_range_of_point pt dim = true
          · refine ⟨hir, fun j hj => ?_⟩
            have hji : dfun (cands.get i)
                = (cands.get i).region.min_euclidean_distance_sq_to_point pt := by
              simp only [hdfun, hir, if_true]
            have hjj : dfun (cands.get j)
                = (cands.get j).region.min_euclidean_distance_sq_to_point pt := by
              simp only [hdfun, hj, if_true]
            have hle : m ≤ dfun (cands.get j) :=
              hmem_le _ (List.mem_map.2 ⟨cands.get j, List.get_mem cands j.1 j.2, rfl⟩)
            rw [hjj] at hle
            rw [← hji, h]
            exact hle
          · exfalso
            have hsen : dfun (cands.get i) = I64_MAX := by
              simp only [hdfun, if_neg hir]
            rw [hsen] at h
            exact absurd h.symm (ne_of_lt hmlt)
        · rintro ⟨hir, hmin⟩
          have hji : dfun (cands.get i)
              = (cands.get i).region.min_euclidean_distance_sq_to_point pt := by
            simp only [hdfun, hir, if_true]
          have h1 : m ≤ dfun (cands.get i) :=
            hmem_le _ (List.mem_map.2 ⟨cands.get i, List.get_mem cands i.1 i.2, rfl⟩)
          have h2 : dfun (cands.get i) ≤ m := by
            rcases min?_getD_mem_or (l := distances) I64_MAX with h | h
            · rw [← hmdef] at h
              exact absurd h (ne_of_lt hmlt)
            · rw [← hmdef] at h
              obtain ⟨c, hc, hcm⟩ := List.mem_map.1 h
              obtain ⟨k, rfl⟩ := List.mem_iff_get.1 hc
              by_cases hkr : (cands.get k).is_in_range_of_point pt dim = true
              · have hjk : dfun (cands.get k)
                    = (cands.get k).region.min_euclidean_distance_sq_to_point pt := by
                  simp only [hdfun, hkr, if_true]
                rw [hji]
                calc (cands.get i).region.min_euclidean_distance_sq_to_point pt
                    ≤ (cands.get k).region.min_euclidean_distance_sq_to_point pt :=
                      hmin k hkr
                  _ = m := by rw [← hjk, hcm]
              · exfalso
                have hsen : dfun (cands.get k) = I64_MAX := by
                  simp only [hdfun, if_neg hkr]
                rw [hsen] at hcm
                exact absurd hcm.symm (ne_of_lt hmlt)
          exact le_antisymm h2 h1
      exact decide_eq_decide.2 hiff

lemma naive_fold_spec (cands : List Portal) (dim : Dimension) (pts : List BlockPos)
    (hov : ∀ pt ∈ pts, ∀ j : Fin cands.length,
      (cands.get j).is_in_range_of_point pt dim = true →
      (cands.get j).region.min_euclidean_distance_sq_to_point pt < I64_MAX) :
    ∀ (flags : List Bool) (newP : Bool), flags.length = cands.length →
    ((pts.foldl (fun acc pt => naive_point_step cands dim pt acc) (flags, newP)).1.length
      = cands.length) ∧
    ((pts.foldl (fun acc pt => naive_point_step cands dim pt acc) (flags, newP)).2
      = (newP || decide (∃ pt ∈ pts, NoneInRangeAt cands dim pt))) ∧
    ∀ i : Fin cands.length,
      (pts.foldl (fun acc pt => naive_point_step cands dim pt acc) (flags, newP)).1.getD
          i.1 false
        = (flags.getD i.1 false || decide (∃ pt ∈ pts, WinnerAt cands dim pt i)) := by
  induction pts with
  | nil =>
    intro flags newP hlen
    simp only [List.foldl_nil]
    refine ⟨hlen, by simp, fun i => by simp⟩
  | cons pt pts ih =>
    intro flags newP hlen
    obtain ⟨hl1, h2, h3⟩ := naive_point_step_spec cands dim pt flags newP hlen
      (hov pt (List.mem_cons_self _ _))
    have hstep : naive_point_step cands dim pt (flags, newP)
        = ((naive_point_step cands dim pt (flags, newP)).1,
           (naive_point_step cands dim pt (flags, newP)).2) := rfl
    obtain ⟨ihl, ih2, ih3⟩ := ih (fun pt' hpt' => hov pt' (List.mem_cons_of_mem _ hpt'))
      (naive_point_step cands dim pt (flags, newP)).1
      (naive_point_step cands dim pt (flags, newP)).2 hl1
    rw [List.foldl_cons, hstep]
    refine ⟨ihl, ?_, fun i => ?_⟩
    · rw [ih2, h2]
      have : (∃ x ∈ pt :: pts, NoneInRangeAt cands dim x)
          ↔ (NoneInRangeAt cands dim pt ∨ ∃ x ∈ pts, NoneInRangeAt cands dim x) :=
        List.exists_mem_cons_iff _ _ _
      rw [decide_eq_decide.2 this, Bool.decide_or, Bool.or_assoc]
    · rw [ih3 i, h3 i]
      have : (∃ x ∈ pt :: pts, WinnerAt cands dim x i)
          ↔ (WinnerAt cands dim pt i ∨ ∃ x ∈ pts, WinnerAt cands dim x i) :=
        List.exists_mem_cons_iff _ _ _
      rw [decide_eq_decide.2 this, Bool.decide_or, Bool.or_assoc]

lemma option_filter_some {α : Type} (f : α → Option Bool) (l : List α)
    (h : ∀ a ∈ l, (f a).isSome) :
    option_filter f l = some (l.filter (fun a => (f a).getD false)) := by
  induction l with
  | nil => rfl
  | cons a rest ih =>
    have ha := h a (List.mem_cons_self _ _)
    rcases hfa : f a with _ | b
    · rw [hfa] at ha; cases ha
    · rw [option_filter, hfa, ih (fun x hx => h x (List.mem_cons_of_mem _ hx))]
      cases b <;> simp [List.filter_cons, hfa]

lemma option_map_list_isSome {α β : Type} (f : α → Option β) (l : List α)
    (h : ∀ a ∈ l, (f a).isSome) :
    ∃ l', option_map_list f l = some l' ∧ l'.length = l.length ∧
      ∀ b ∈ l', ∃ a ∈ l, f a = some b := by
  induction l with
  | nil => exact ⟨[], rfl, rfl, by simp⟩
  | cons a rest ih =>
    have ha := h a (List.mem_cons_self _ _)
    rcases hfa : f a with _ | b
    · rw [hfa] at ha; cases ha
    · obtain ⟨l', hl', hlen, hmem⟩ := ih (fun x hx => h x (List.mem_cons_of_mem _ hx))
      refine ⟨b :: l', ?_, by simp [hlen], ?_⟩
      · rw [option_map_list, hfa, hl']
        rfl
      · intro c hc
        rcases List.mem_cons.1 hc with rfl | hc
        · exact ⟨a, List.mem_cons_self _ _, hfa⟩
        · obtain ⟨x, hx, hfx⟩ := hmem c hc
          exact ⟨x, List.mem_cons_of_mem _ hx, hfx⟩

lemma set_confirmed_some (confirmed : List Bool) (idxs : List Nat)
    (h : ∀ p ∈ idxs, p < confirmed.length) :
    ∃ c', set_confirmed confirmed idxs = some c' ∧ c'.length = confirmed.length := by
  induction idxs generalizing confirmed with
  | nil => exact ⟨confirmed, rfl, rfl⟩
  | cons p rest ih =>
    have hp := h p (List.mem_cons_self _ _)
    obtain ⟨c', hc', hlen⟩ := ih (confirmed.set p true) (fun q hq => by
      rw [List.length_set]
      exact h q (List.mem_cons_of_mem _ hq))
    refine ⟨c', ?_, by rw [hlen, List.length_set]⟩
    rw [set_confirmed, if_pos hp]
    exact hc'

lemma exists_unconfirmed_isSome (confirmed : List Bool) (idxs : List Nat)
    (h : ∀ p ∈ idxs, p < confirmed.length) :
    ∃ b, exists_unconfirmed confirmed idxs = some b := by
  induction idxs with
  | nil => exact ⟨false, rfl⟩
  | cons p rest ih =>
    have hp := h p (List.mem_cons_self _ _)
    rw [exists_unconfirmed, List.getElem?_eq_getElem hp]
    rcases hb : confirmed[p] with _ | _
    · exact ⟨true, rfl⟩
    · exact ih (fun q hq => h q (List.mem_cons_of_mem _ hq))

lemma minima_subset {α κ : Type} [LinearOrder κ] (xs : List α) (f : α → Option κ) :
    ∀ x ∈ minima_by_opt_key xs f, x ∈ xs := by
  intro x hx
  unfold minima_by_opt_key at hx
  rw [minima_loop_start] at hx
  rcases hmin : (xs.filterMap f).min? with _ | n <;> rw [hmin] at hx
  · cases hx
  · exact List.mem_of_mem_filter hx

lemma closest_candidates_at_some (cands : List Portal) (dim : Dimension)
    (might : List Nat) (corner : BlockPos) (h : ∀ p ∈ might, p < cands.length) :
    ∃ l', closest_candidates_at cands dim might corner = some l' ∧
      ∀ q ∈ l', q ∈ might := by
  obtain ⟨pcs, hpcs, _, hmem⟩ := option_map_list_isSome
    (fun p => (cands[p]?).map (fun c => (p, c))) might
    (fun p hp => by dsimp only; rw [List.getElem?_eq_getElem (h p hp)]; rfl)
  refine ⟨_, by rw [closest_candidates_at, hpcs]; rfl, ?_⟩
  intro q hq
  obtain ⟨pc, hpc, rfl⟩ := List.mem_map.1 hq
  obtain ⟨p, hp, hfp⟩ := hmem pc (minima_subset _ _ _ hpc)
  rcases hcp : cands[p]? with _ | c
  · rw [hcp] at hfp; cases hfp
  · rw [hcp] at hfp
    simp only [Option.map_some', Option.some.injEq] at hfp
    rw [← hfp]
    exact hp

lemma tdiv_two_pos_nonneg {d : Int} (h : 1 ≤ Int.tdiv d 2) : 0 ≤ d := by
  by_contra hneg
  push_neg at hneg
  have h0 : (0 : Int) ≤ -d := by omega
  have h1 : 0 ≤ (-d).tdiv 2 := Int.tdiv_nonneg h0 (by norm_num)
  rw [Int.neg_tdiv] at h1
  omega

lemma tdiv_two_sub_nonneg {d : Int} (h : Int.tdiv d 2 ≤ d - 2) : 0 ≤ d := by
  by_contra hneg
  push_neg at hneg
  have h0 : (0 : Int) ≤ -d := by omega
  have h1 : (-d).tdiv 2 = (-d) / 2 := Int.tdiv_eq_ediv h0 (by norm_num)
  have h2 : Int.tdiv d 2 = -((-d).tdiv 2) := by
    rw [Int.neg_tdiv]
    omega
  rw [h2, h1] at h
  omega

lemma tdiv_lo_bound {mn mx : Int} (h : mn + 1 ≤ mn + Int.tdiv (mx - mn) 2) :
    (mn + Int.tdiv (mx - mn) 2 - (mn + 1)).toNat < (mx - mn).toNat := by
  have h1 : 1 ≤ Int.tdiv (mx - mn) 2 := by omega
  have hd := tdiv_two_pos_nonneg h1
  rw [Int.tdiv_eq_ediv hd (by norm_num)] at *
  omega

lemma tdiv_hi_bound {mn mx : Int} (h : mn + Int.tdiv (mx - mn) 2 + 1 ≤ mx - 1) :
    (mx - 1 - (mn + Int.tdiv (mx - mn) 2 + 1)).toNat < (mx - mn).toNat := by
  have h1 : Int.tdiv (mx - mn) 2 ≤ (mx - mn) - 2 := by omega
  have hd := tdiv_two_sub_nonneg h1
  rw [Int.tdiv_eq_ediv hd (by norm_num)] at *
  omega

lemma split_excluding_fst_measure (r : BlockRegion) (a : Axis) (lo : BlockRegion)
    (h : (r.split_excluding_corners a).1 = some lo) :
    region_measure lo < region_measure r := by
  cases a <;>
  · simp only [BlockRegion.split_excluding_corners, BlockRegion.is_valid_on_axis,
      BlockPos.setIndex, BlockPos.index] at h
    split at h
    · rename_i hcond
      simp only [decide_eq_true_eq] at hcond
      injection h with h2
      subst h2
      have hb := tdiv_lo_bound hcond
      simp only [region_measure]
      omega
    · cases h

lemma split_excluding_snd_measure (r : BlockRegion) (a : Axis) (hi : BlockRegion)
    (h : (r.split_excluding_corners a).2 = some hi) :
    region_measure hi < region_measure r := by
  cases a <;>
  · simp only [BlockRegion.split_excluding_corners, BlockRegion.is_valid_on_axis,
      BlockPos.setIndex, BlockPos.index] at h
    split at h
    · rename_i hcond
      simp only [decide_eq_true_eq] at hcond
      injection h with h2
      subst h2
      have hb := tdiv_hi_bound hcond
      simp only [region_measure]
      omega
    · cases h

lemma try_split_point_measure (region : BlockRegion) (a : Axis) (sp : Int)
    (lo hi : BlockRegion) (h : try_split_point region a sp = some (lo, hi)) :
    region_measure lo < region_measure region ∧
    region_measure hi < region_measure region := by
  unfold try_split_point at h
  split at h
  · rename_i hcond
    cases a <;>
    · simp only [BlockPos.index] at hcond
      simp only [BlockRegion.split_at, BlockRegion.is_valid_on_axis, BlockPos.setIndex,
        BlockPos.index, i64_min_eq, i64_max_eq] at h
      split at h
      · rename_i lo1 hi1 heq
        injection h with h2
        injection h2 with h3 h4
        subst h3
        subst h4
        rw [Prod.mk.injEq] at heq
        obtain ⟨hA, hB⟩ := heq
        split at hA
        · rename_i hv1
          simp only [decide_eq_true_eq] at hv1
          injection hA with hA2
          subst hA2
          split at hB
          · rename_i hv2
            simp only [decide_eq_true_eq] at hv2
            injection hB with hB2
            subst hB2
            constructor <;>
              · simp only [region_measure]
                omega
          · cases hB
        · cases hA
      · rename_i hfall
        cases h
  · cases h

lemma split_for_candidate_measure (cands : List Portal) (region : BlockRegion)
    (axes_split : List Bool) (p : Nat) (axs : List Axis) (lo hi : BlockRegion)
    (h : split_for_candidate cands region axes_split p axs = some (some (lo, hi))) :
    region_measure lo < region_measure region ∧
    region_measure hi < region_measure region := by
  induction axs with
  | nil => cases h
  | cons a rest ih =>
    rw [split_for_candidate] at h
    split at h
    · exact ih h
    · split at h
      · cases h
      · rename_i c hc
        split at h
        · rename_i lohi htr
          injection h with h2
          injection h2 with h3
          subst h3
          exact try_split_point_measure _ _ _ _ _ htr
        · split at h
          · rename_i lohi htr
            injection h with h2
            injection h2 with h3
            subst h3
            exact try_split_point_measure _ _ _ _ _ htr
          · exact ih h

lemma split_for_candidate_isSome (cands : List Portal) (region : BlockRegion)
    (axes_split : List Bool) (p : Nat) (axs : List Axis) (hp : p < cands.length) :
    ∃ o, split_for_candidate cands region axes_split p axs = some o := by
  induction axs with
  | nil => exact ⟨none, rfl⟩
  | cons a rest ih =>
    rw [split_for_candidate]
    split
    · exact ih
    · rcases hcp : cands[p]? with _ | c
      · rw [List.getElem?_eq_getElem hp] at hcp
        cases hcp
      · rcases htr1 : try_split_point region a (c.region.min.index a) with _ | lohi
        · rcases htr2 : try_split_point region a (c.region.max.index a) with _ | lohi2
          · simp only [hcp, htr1, htr2]
            exact ih
          · exact ⟨some lohi2, by simp only [hcp, htr1, htr2]⟩
        · exact ⟨some lohi, by simp only [hcp, htr1]⟩

lemma find_disambiguation_split_measure (cands : List Portal) (region : BlockRegion)
    (axes_split : List Bool) (idxs : List Nat) (lo hi : BlockRegion)
    (h : find_disambiguation_split cands region axes_split idxs = some (some (lo, hi))) :
    region_measure lo < region_measure region ∧
    region_measure hi < region_measure region := by
  induction idxs with
  | nil => cases h
  | cons p rest ih =>
    rw [find_disambiguation_split] at h
    split at h
    · cases h
    · rename_i lohi hsp
      injection h with h2
      injection h2 with h3
      subst h3
      exact split_for_candidate_measure _ _ _ _ _ _ _ hsp
    · exact ih h

lemma find_disambiguation_split_isSome (cands : List Portal) (region : BlockRegion)
    (axes_split : List Bool) (idxs : List Nat) (h : ∀ p ∈ idxs, p < cands.length) :
    ∃ o, find_disambiguation_split cands region axes_split idxs = some o := by
  induction idxs with
  | nil => exact ⟨none, rfl⟩
  | cons p rest ih =>
    obtain ⟨o, ho⟩ := split_for_candidate_isSome cands region axes_split p Axis.ALL
      (h p (List.mem_cons_self _ _))
    rw [find_disambiguation_split, ho]
    rcases o with _ | lohi
    · exact ih (fun q hq => h q (List.mem_cons_of_mem _ hq))
    · exact ⟨some lohi, rfl⟩

lemma split_excluding_step_isSome (n : Nat)
    (recur : BlockRegion → List Bool → Bool → Option (List Bool × Bool))
    (region : BlockRegion) (a : Axis) (st : List Bool × Bool)
    (hst : st.1.length = n)
    (hrec : ∀ r' c' np', region_measure r' < region_measure region → c'.length = n →
      ∃ st', recur r' c' np' = some st' ∧ st'.1.length = n) :
    ∃ st', split_excluding_step recur region a st = some st' ∧ st'.1.length = n := by
  unfold split_excluding_step
  rcases h1 : (region.split_excluding_corners a).1 with _ | lo <;>
    rcases h2 : (region.split_excluding_corners a).2 with _ | hi <;>
    simp only [Option.pure_def, Option.bind_eq_bind, Option.some_bind]
  · exact ⟨st, rfl, hst⟩
  · obtain ⟨st', heq, hlen⟩ := hrec hi st.1 st.2 (split_excluding_snd_measure _ _ _ h2) hst
    exact ⟨st', heq, hlen⟩
  · obtain ⟨st', heq, hlen⟩ := hrec lo st.1 st.2 (split_excluding_fst_measure _ _ _ h1) hst
    rw [heq]
    simp only [Option.some_bind]
    exact ⟨st', rfl, hlen⟩
  · obtain ⟨stL, heqL, hlenL⟩ := hrec lo st.1 st.2 (split_excluding_fst_measure _ _ _ h1) hst
    obtain ⟨stH, heqH, hlenH⟩ := hrec hi stL.1 stL.2 (split_excluding_snd_measure _ _ _ h2)
      hlenL
    rw [heqL]
    simp only [Option.some_bind]
    exact ⟨stH, heqH, hlenH⟩

lemma mark_reachable_isSome (dim : Dimension) (cands : List Portal) :
    ∀ (fuel : Nat) (region : BlockRegion) (might : List Nat) (confirmed : List Bool)
      (newP : Bool),
      region_measure region < fuel →
      (∀ p ∈ might, p < cands.length) →
      confirmed.length = cands.length →
      ∃ st, mark_reachable_portals fuel dim region cands might confirmed newP = some st ∧
        st.1.length = cands.length := by
  intro fuel
  induction fuel with
  | zero =>
    intro region might confirmed newP hf
    exact absurd hf (Nat.not_lt_zero _)
  | succ fuel ih =>
    intro region might confirmed newP hf hidx hlen
    rw [mark_reachable_portals]
    have h1 : ∀ p ∈ might,
        ((fun p => (cands[p]?).map (fun c => c.is_in_range_of_region region dim)) p).isSome :=
      fun p hp => by dsimp only; rw [List.getElem?_eq_getElem (hidx p hp)]; rfl
    rw [option_filter_some _ _ h1]
    set might1 := might.filter
      (fun a => ((cands[a]?).map (fun c => c.is_in_range_of_region region dim)).getD false)
      with hm1
    have hidx1 : ∀ p ∈ might1, p < cands.length :=
      fun p hp => hidx p (List.mem_of_mem_filter hp)
    simp only [Option.pure_def, Option.bind_eq_bind, Option.some_bind]
    have h2 : ∀ p ∈ might1,
        ((fun p =>
          (cands[p]?).map (fun c => c.is_always_in_range_of_region region dim)) p).isSome :=
      fun p hp => by dsimp only; rw [List.getElem?_eq_getElem (hidx1 p hp)]; rfl
    rw [option_filter_some _ _ h2]
    simp only [Option.some_bind]
    set always := might1.filter
      (fun a =>
        ((cands[a]?).map (fun c => c.is_always_in_range_of_region region dim)).getD false)
      with halw
    obtain ⟨maxDists, heq3, _, _⟩ := option_map_list_isSome
      (fun p => (cands[p]?).map (fun c => region.max_euclidean_distance_sq_to c.region))
      always
      (fun p hp => by
        dsimp only
        rw [List.getElem?_eq_getElem (hidx1 p (List.mem_of_mem_filter hp))]
        rfl)
    rw [heq3]
    simp only [Option.some_bind]
    have h4 : ∀ p ∈ might1,
        ((fun p => (cands[p]?).map
          (fun c => decide (region.min_euclidean_distance_sq_to c.region ≤
            (maxDists.min?).getD I64_MAX))) p).isSome :=
      fun p hp => by dsimp only; rw [List.getElem?_eq_getElem (hidx1 p hp)]; rfl
    rw [option_filter_some _ _ h4]
    simp only [Option.some_bind]
    set might2 := might1.filter
      (fun a => ((cands[a]?).map
        (fun c => decide (region.min_euclidean_distance_sq_to c.region ≤
          (maxDists.min?).getD I64_MAX))).getD false) with hm2
    have hidx2 : ∀ p ∈ might2, p < cands.length :=
      fun p hp => hidx1 p (List.mem_of_mem_filter hp)
    obtain ⟨closest, heq5, _, hmem5⟩ := option_map_list_isSome
      (closest_candidates_at cands dim might2) region.corners
      (fun corner hc => by
        obtain ⟨l', hl', _⟩ := closest_candidates_at_some cands dim might2 corner hidx2
        rw [hl']
        rfl)
    rw [heq5]
    simp only [Option.some_bind]
    have hflat : ∀ q ∈ closest.flatten, q < cands.length := by
      intro q hq
      obtain ⟨l', hl', hql⟩ := List.mem_flatten.1 hq
      obtain ⟨corner, _, hcc⟩ := hmem5 l' hl'
      obtain ⟨l'', hl'', hsub⟩ := closest_candidates_at_some cands dim might2 corner hidx2
      rw [hcc] at hl''
      injection hl'' with hll
      subst hll
      exact hidx2 q (hsub q hql)
    obtain ⟨confirmed1, heq6, hlen6⟩ := set_confirmed_some confirmed closest.flatten
      (fun p hp => by rw [hlen]; exact hflat p hp)
    rw [heq6]
    simp only [Option.some_bind]
    obtain ⟨b, hb⟩ := exists_unconfirmed_isSome confirmed1 might2
      (fun p hp => by rw [hlen6, hlen]; exact hidx2 p hp)
    rw [hb]
    simp only [Option.some_bind]
    have hlenc : confirmed1.length = cands.length := by rw [hlen6, hlen]
    rcases b with _ | _
    · simp only [if_pos rfl]
      exact ⟨(confirmed1, newP || closest.any List.isEmpty), rfl, hlenc⟩
    · simp only [Bool.true_eq_false, if_false]
      have hrec : ∀ r' c' np', region_measure r' < region_measure region →
          c'.length = cands.length →
          ∃ st', mark_reachable_portals fuel dim r' cands might2 c' np' = some st' ∧
            st'.1.length = cands.length :=
        fun r' c' np' hm hl =>
          ih r' might2 c' np' (lt_of_lt_of_le hm (Nat.lt_succ_iff.mp hf)) hidx2 hl
      have haxis : ∀ (s : Bool) (a : Axis) (st : List Bool × Bool),
          st.1.length = cands.length →
          ∃ st', axis_step
              (fun r c n => mark_reachable_portals fuel dim r cands might2 c n)
              region a s st = some st' ∧ st'.1.length = cands.length := by
        intro s a st hst
        rcases s with _ | _
        · exact ⟨st, rfl, hst⟩
        · unfold axis_step
          simp only [if_pos rfl]
          exact split_excluding_step_isSome cands.length _ region a st hst hrec
      obtain ⟨st1, heqA, hlenA⟩ := haxis (should_split_along closest Axis.X) Axis.X
        (confirmed1, newP || closest.any List.isEmpty) hlenc
      rw [heqA]
      simp only [Option.some_bind]
      obtain ⟨st2, heqB, hlenB⟩ := haxis (should_split_along closest Axis.Y) Axis.Y st1 hlenA
      rw [heqB]
      simp only [Option.some_bind]
      obtain ⟨st3, heqC, hlenC⟩ := haxis (should_split_along closest Axis.Z) Axis.Z st2 hlenB
      rw [heqC]
      simp only [Option.some_bind]
      have h7 : ∀ p ∈ might2, ((fun p => (st3.1[p]?).map (fun b => !b)) p).isSome :=
        fun p hp => by
          dsimp only
          rw [List.getElem?_eq_getElem (by rw [hlenC]; exact hidx2 p hp)]
          rfl
      rw [option_filter_some _ _ h7]
      simp only [Option.some_bind]
      obtain ⟨o, ho⟩ := find_disambiguation_split_isSome cands region
        [should_split_along closest Axis.X, should_split_along closest Axis.Y,
         should_split_along closest Axis.Z]
        (might2.filter (fun a => ((st3.1[a]?).map (fun b => !b)).getD false))
        (fun p hp => hidx2 p (List.mem_of_mem_filter hp))
      rw [ho]
      simp only [Option.some_bind]
      rcases o with _ | ⟨lo, hi⟩
      · exact ⟨st3, rfl, hlenC⟩
      · obtain ⟨hmlo, hmhi⟩ := find_disambiguation_split_measure _ _ _ _ _ _ ho
        obtain ⟨stL, heqL, hlenL⟩ := hrec lo st3.1 st3.2 hmlo hlenC
        dsimp only
        rw [heqL]
        simp only [Option.some_bind]
        exact hrec hi stL.1 stL.2 hmhi hlenL

lemma positions_true_lt (l : List Bool) : ∀ i ∈ positions_true l, i < l.length := by
  intro i hi
  unfold positions_true at hi
  obtain ⟨ib, hib, rfl⟩ := List.mem_map.1 hi
  have hmem := (List.mem_filter.1 hib).1
  have := List.mem_enum_iff_getElem?.1 hmem
  exact (List.getElem?_eq_some.1 this).1

/-- Claim C6: on a valid destination region with no candidate portal in the
destination dimension, the production resolver returns an empty
existing_portals list alongside new_portal = true: with no candidates, every
corner has an empty closest set (setting the flag) and no index is ever
unconfirmed, so the recursion returns at once. -/
theorem claim_C6_empty_candidates (wp : WorldPortals) (dim : Dimension)
    (region : BlockRegion) (hv : region.isValid = true) (h : wp.index dim = []) :
    wp.portal_destinations dim region = some ([], true) := by
  unfold WorldPortals.portal_destinations
  dsimp only
  rw [h]
  rfl

/-- Witness for C6 at a concrete valid region and a world with portals only
in the other dimension. -/
theorem claim_C6_empty_candidates_witness :
    (BlockRegion.mk (BlockPos.mk 0 2 3) (BlockPos.mk 5 4 9)).isValid = true ∧
    (WorldPortals.mk [gap_portal_a] []).portal_destinations Dimension.Nether
      (BlockRegion.mk (BlockPos.mk 0 2 3) (BlockPos.mk 5 4 9)) = some ([], true) := by
  exact ⟨by decide, claim_C6_empty_candidates _ _ _ (by decide) rfl⟩

lemma option_map_list_eq {α β : Type} (f : α → Option β) (g : α → β) :
    ∀ l : List α, (∀ a ∈ l, f a = some (g a)) →
      option_map_list f l = some (l.map g) := by
  intro l
  induction l with
  | nil => intro _; rfl
  | cons a rest ih =>
    intro h
    rw [option_map_list, h a (List.mem_cons_self _ _),
      ih (fun x hx => h x (List.mem_cons_of_mem _ hx))]
    rfl

lemma filter_range_nil (g : Nat → Bool) (n : Nat) (h : ∀ i < n, g i = false) :
    (List.range n).filter g = [] := by
  rw [List.filter_eq_nil_iff]
  intro a ha
  simp [h a (List.mem_range.1 ha)]

lemma filter_range_singleton (g : Nat → Bool) :
    ∀ n j, j < n → g j = true → (∀ i < n, i ≠ j → g i = false) →
      (List.range n).filter g = [j] := by
  intro n
  induction n with
  | zero => intro j hj; omega
  | succ m ih =>
    intro j hj hgj hothers
    rw [List.range_succ, List.filter_append]
    by_cases hjm : j = m
    · subst hjm
      rw [filter_range_nil g j (fun i hi => hothers i (by omega) (by omega))]
      simp [hgj]
    · have hj2 : j < m := by omega
      rw [ih j hj2 hgj (fun i hi hne => hothers i (by omega) hne)]
      have hm : g m = false := hothers m (Nat.lt_succ_self m) (fun h => hjm h.symm)
      simp [hm]

lemma corners_mem_points (r : BlockRegion) (hv : r.isValid) :
    ∀ c ∈ r.corners, c ∈ r.points := by
  obtain ⟨h1, h2, h3⟩ := hv
  intro c hc
  rw [mem_points]
  unfold BlockRegion.corners at hc
  simp only [List.mem_cons, List.not_mem_nil, or_false] at hc
  unfold BlockRegion.containsPos
  rcases hc with rfl | rfl | rfl | rfl | rfl | rfl | rfl | rfl <;> dsimp only <;> omega

lemma search_range_nonneg (dim : Dimension) : (0 : Int) ≤ dim.portal_search_range := by
  cases dim <;> dsimp only [Dimension.portal_search_range] <;> omega

lemma in_range_region_of_point_min (p : Portal) (region : BlockRegion)
    (dim : Dimension) (hv : region.isValid)
    (h : p.is_in_range_of_point region.min dim = true) :
    p.is_in_range_of_region region dim = true := by
  obtain ⟨h1, h2, h3⟩ := hv
  have hr0 := search_range_nonneg dim
  unfold Portal.is_in_range_of_point at h
  unfold Portal.is_in_range_of_region
  simp only [Bool.and_eq_true, decide_eq_true_eq, ge_iff_le] at h ⊢
  omega

lemma not_in_range_region (p : Portal) (region : BlockRegion) (dim : Dimension)
    (hv : region.isValid) (hpv : p.region.isValid)
    (h : ∀ pt ∈ region.points, p.is_in_range_of_point pt dim = false) :
    p.is_in_range_of_region region dim = false := by
  obtain ⟨h1, h2, h3⟩ := hv
  obtain ⟨p1, p2, p3⟩ := hpv
  have hr0 := search_range_nonneg dim
  by_contra hbox
  rw [Bool.not_eq_false] at hbox
  unfold Portal.is_in_range_of_region at hbox
  simp only [Bool.and_eq_true, decide_eq_true_eq, ge_iff_le] at hbox
  obtain ⟨⟨⟨hb1, hb2⟩, hb3⟩, hb4⟩ := hbox
  have hpt : (BlockPos.mk
      (i64_max region.min.x (p.region.min.x - dim.portal_search_range))
      region.min.y
      (i64_max region.min.z (p.region.min.z - dim.portal_search_range))) ∈
      region.points := by
    rw [mem_points]
    unfold BlockRegion.containsPos
    dsimp only
    rw [i64_max_eq, i64_max_eq]
    omega
  have htrue : p.is_in_range_of_point (BlockPos.mk
      (i64_max region.min.x (p.region.min.x - dim.portal_search_range))
      region.min.y
      (i64_max region.min.z (p.region.min.z - dim.portal_search_range))) dim = true := by
    unfold Portal.is_in_range_of_point
    dsimp only
    simp only [Bool.and_eq_true, decide_eq_true_eq, i64_max_eq]
    omega
  rw [h _ hpt] at htrue
  exact Bool.false_ne_true htrue

lemma always_in_range_of_points (p : Portal) (region : BlockRegion) (dim : Dimension)
    (hv : region.isValid)
    (h : ∀ pt ∈ region.points, p.is_in_range_of_point pt dim = true) :
    p.is_always_in_range_of_region region dim = true := by
  obtain ⟨h1, h2, h3⟩ := hv
  have hr0 := search_range_nonneg dim
  have hmin : region.min ∈ region.points :=
    (mem_points _ _).2 ⟨le_refl _, h1, le_refl _, h2, le_refl _, h3⟩
  have hmax : region.max ∈ region.points :=
    (mem_points _ _).2 ⟨h1, le_refl _, h2, le_refl _, h3, le_refl _⟩
  have hlo := h _ hmin
  have hhi := h _ hmax
  unfold Portal.is_in_range_of_point at hlo hhi
  simp only [Bool.and_eq_true, decide_eq_true_eq] at hlo hhi
  unfold Portal.is_always_in_range_of_region max_range_distance_to
    min_range_distance_to_pos
  simp only [Bool.and_eq_true, decide_eq_true_eq, i64_max_eq]
  constructor <;> rw [max_le_iff] <;> constructor <;> split_ifs <;> omega

lemma min_le_max_range (a1 b1 a2 b2 : Int) (ha : a1 ≤ b1) (hb : a2 ≤ b2) :
    min_range_distance_to a1 b1 a2 b2 ≤ max_range_distance_to a1 b1 a2 b2 ∧
    0 ≤ min_range_distance_to a1 b1 a2 b2 := by
  unfold min_range_distance_to max_range_distance_to min_range_distance_to_pos
  rw [i64_max_eq]
  split_ifs <;> omega

lemma min_dist_le_max_dist (r o : BlockRegion) (hr : r.isValid) (ho : o.isValid) :
    r.min_euclidean_distance_sq_to o ≤ r.max_euclidean_distance_sq_to o := by
  obtain ⟨r1, r2, r3⟩ := hr
  obtain ⟨o1, o2, o3⟩ := ho
  unfold BlockRegion.min_euclidean_distance_sq_to BlockRegion.max_euclidean_distance_sq_to
  dsimp only
  obtain ⟨hx, hx0⟩ := min_le_max_range r.min.x r.max.x o.min.x o.max.x r1 o1
  obtain ⟨hy, hy0⟩ := min_le_max_range r.min.y r.max.y o.min.y o.max.y r2 o2
  obtain ⟨hz, hz0⟩ := min_le_max_range r.min.z r.max.z o.min.z o.max.z r3 o3
  exact add_le_add (add_le_add (mul_le_mul hx hx hx0 (le_trans hx0 hx))
    (mul_le_mul hy hy hy0 (le_trans hy0 hy))) (mul_le_mul hz hz hz0 (le_trans hz0 hz))

lemma closest_singleton (cands : List Portal) (dim : Dimension) (j : Nat)
    (c : Portal) (hc : cands[j]? = some c) (corner : BlockPos)
    (hr : c.is_in_range_of_point corner dim = true) :
    closest_candidates_at cands dim [j] corner = some [j] := by
  unfold closest_candidates_at
  rw [option_map_list, hc]
  simp only [Option.map_some', option_map_list]
  unfold minima_by_opt_key
  simp only [minima_by_opt_key_loop, hr, if_true, List.map_cons, List.map_nil]

lemma set_confirmed_rep (n j : Nat) (hj : j < n) :
    set_confirmed (List.replicate n false) [j, j, j, j, j, j, j, j] =
      some ((List.replicate n false).set j true) := by
  simp [set_confirmed, List.set_set, hj]

lemma enumFrom_replicate_false_filter :
    ∀ (n k : Nat),
      (List.enumFrom k (List.replicate n false)).filter (fun ib => ib.2) = [] := by
  intro n
  induction n with
  | zero => intro k; rfl
  | succ m ih =>
    intro k
    simp only [List.replicate_succ, List.enumFrom, List.filter, ih]

lemma enumFrom_set_filter :
    ∀ (n j k : Nat), j < n →
      (List.enumFrom k ((List.replicate n false).set j true)).filter
        (fun ib => ib.2) = [(k + j, true)] := by
  intro n
  induction n with
  | zero => intro j k hj; omega
  | succ m ih =>
    intro j k hj
    cases j with
    | zero =>
      simp only [List.replicate_succ, List.set, List.enumFrom, List.filter,
        enumFrom_replicate_false_filter, Nat.add_zero]
    | succ i =>
      have hrec := ih i (k + 1) (by omega)
      have hk : k + 1 + i = k + (i + 1) := by omega
      simp only [List.replicate_succ, List.set, List.enumFrom, List.filter, hrec, hk]

lemma positions_true_set (n j : Nat) (hj : j < n) :
    positions_true ((List.replicate n false).set j true) = [j] := by
  unfold positions_true List.enum
  rw [enumFrom_set_filter n j 0 hj]
  simp only [List.map_cons, List.map_nil, Nat.zero_add]

lemma getElem?_set_true (l : List Bool) (j : Nat) (hj : j < l.length) :
    (l.set j true)[j]? = some true := by
  rw [List.getElem?_eq_getElem (by rw [List.length_set]; exact hj)]
  rw [List.getElem_set]
  simp

lemma resolver_unique_covering (cands : List Portal) (dim : Dimension)
    (region : BlockRegion) (hv : region.isValid)
    (hcv : ∀ c ∈ cands, c.region.isValid)
    (jv : Nat) (hjn : jv < cands.length)
    (hj : ∀ pt ∈ region.points, cands[jv].is_in_range_of_point pt dim = true)
    (hothers : ∀ (i : Nat) (hi : i < cands.length), i ≠ jv →
      ∀ pt ∈ region.points, cands[i].is_in_range_of_point pt dim = false) :
    ((do
      let st ← mark_reachable_portals (region_measure region + 1) dim region cands
        (List.range cands.length) (List.replicate cands.length false) false
      let existing ← option_map_list (fun i => cands[i]?) (positions_true st.1)
      pure (existing, st.2)) : Option (List Portal × Bool)) = some ([cands[jv]], false) := by
  have hc : cands[jv]? = some cands[jv] := List.getElem?_eq_getElem hjn
  have hminpt : region.min ∈ region.points :=
    (mem_points _ _).2 ⟨le_refl _, hv.1, le_refl _, hv.2.1, le_refl _, hv.2.2⟩
  have hboxj : cands[jv].is_in_range_of_region region dim = true :=
    in_range_region_of_point_min _ region dim hv (hj region.min hminpt)
  have hcmem : cands[jv] ∈ cands := List.get_mem cands jv hjn
  have hboxi : ∀ (i : Nat) (hi : i < cands.length), i ≠ jv →
      cands[i].is_in_range_of_region region dim = false := by
    intro i hi hne
    exact not_in_range_region _ region dim hv (hcv _ (List.get_mem cands i hi))
      (hothers i hi hne)
  have hmark : mark_reachable_portals (region_measure region + 1) dim region cands
      (List.range cands.length) (List.replicate cands.length false) false =
      some ((List.replicate cands.length false).set jv true, false) := by
    rw [mark_reachable_portals]
    have hsome1 : ∀ a ∈ List.range cands.length,
        ((fun p => (cands[p]?).map (fun c => c.is_in_range_of_region region dim)) a).isSome :=
      fun a ha => by
        dsimp only
        rw [List.getElem?_eq_getElem (List.mem_range.1 ha)]
        rfl
    rw [option_filter_some _ _ hsome1, filter_range_singleton _ cands.length jv hjn
      (by rw [hc]; simp only [Option.map_some', Option.getD_some]; exact hboxj)
      (by
        intro i hi hne
        rw [List.getElem?_eq_getElem hi]
        simp only [Option.map_some', Option.getD_some]
        exact hboxi i hi hne)]
    simp only [Option.pure_def, Option.bind_eq_bind, Option.some_bind]
    have halways : cands[jv].is_always_in_range_of_region region dim = true :=
      always_in_range_of_points _ region dim hv hj
    have hsome2 : ∀ a ∈ [jv],
        ((fun p =>
          (cands[p]?).map (fun c => c.is_always_in_range_of_region region dim)) a).isSome :=
      fun a ha => by
        dsimp only
        rw [List.mem_singleton.1 ha, hc]
        rfl
    rw [option_filter_some _ _ hsome2]
    simp only [List.filter_cons, List.filter_nil, hc, Option.map_some', Option.getD_some,
      halways, if_true, Option.some_bind]
    rw [option_map_list_eq
      (fun p => (cands[p]?).map (fun c => region.max_euclidean_distance_sq_to c.region))
      (fun _ => region.max_euclidean_distance_sq_to cands[jv].region) [jv]
      (fun a ha => by dsimp only; rw [List.mem_singleton.1 ha, hc]; rfl)]
    simp only [List.map_cons, List.map_nil, Option.some_bind]
    have hsmall : (([region.max_euclidean_distance_sq_to cands[jv].region].min?).getD
        I64_MAX) = region.max_euclidean_distance_sq_to cands[jv].region := rfl
    rw [hsmall]
    have hle : decide (region.min_euclidean_distance_sq_to cands[jv].region ≤
        region.max_euclidean_distance_sq_to cands[jv].region) = true :=
      decide_eq_true (min_dist_le_max_dist region cands[jv].region hv (hcv _ hcmem))
    have hsome3 : ∀ a ∈ [jv],
        ((fun p => (cands[p]?).map
          (fun c0 => decide (region.min_euclidean_distance_sq_to c0.region ≤
            region.max_euclidean_distance_sq_to cands[jv].region))) a).isSome :=
      fun a ha => by
        dsimp only
        rw [List.mem_singleton.1 ha, hc]
        rfl
    rw [option_filter_some _ _ hsome3]
    simp only [List.filter_cons, List.filter_nil, hc, Option.map_some', Option.getD_some,
      hle, if_true, Option.some_bind]
    rw [option_map_list_eq (closest_candidates_at cands dim [jv]) (fun _ => [jv])
      region.corners
      (fun corner hcorner => closest_singleton cands dim jv cands[jv] hc corner
        (hj corner (corners_mem_points region hv corner hcorner)))]
    simp only [Option.some_bind]
    have hflat : (region.corners.map (fun _ => [jv])).flatten =
        [jv, jv, jv, jv, jv, jv, jv, jv] := by
      simp [BlockRegion.corners]
    have hnew : (false || (region.corners.map (fun _ => [jv])).any List.isEmpty) = false := by
      simp [BlockRegion.corners]
    rw [hflat, hnew, set_confirmed_rep cands.length jv hjn]
    simp only [Option.some_bind]
    have hG : exists_unconfirmed ((List.replicate cands.length false).set jv true) [jv] =
        some false := by
      rw [exists_unconfirmed,
        getElem?_set_true _ _ (by rw [List.length_replicate]; exact hjn)]
      rfl
    rw [hG]
    simp only [Option.some_bind, eq_self_iff_true, if_true]
  rw [hmark]
  simp only [Option.pure_def, Option.bind_eq_bind, Option.some_bind]
  rw [positions_true_set cands.length jv hjn]
  rw [option_map_list_eq (fun i => cands[i]?) (fun _ => cands[jv]) [jv]
    (fun a ha => by dsimp only; rw [List.mem_singleton.1 ha]; exact hc)]
  simp only [List.map_cons, List.map_nil, Option.some_bind]

